import Mathlib

/-!
Shallow embedding of the chess engine in src/chess_ubuntu.c and proofs about
the claims of its specification.

Conventions of the embedding:
  - The 8x8 char board of the C program (char board[8][8]) is modelled as a
    function from two Int coordinates to Char; EMPTY is the space character.
    Concrete boards default to EMPTY off the 8x8 range; every access the C
    program performs is bounds-checked or inside a 0..7 loop.
  - C ints are modelled as Int; loop counters ranging over 0..7 are produced
    by casting List.range 8.
  - Functions of the C program that read the shared GameState without a net
    mutation are first embedded as pure functions of a GameState (the value
    semantics); the functions whose internal save/mutate/restore discipline
    the claims are about are additionally embedded in state-passing style
    (suffix S), returning the resulting GameState explicitly, and agreement
    with the pure versions is proved.
  - The C while-loops that walk rays across the board are embedded with a
    fuel parameter; fuel 16 dominates every possible walk, since every
    iteration either leaves the 8-wide board (the loop then returns false at
    its bounds check) or advances one square in a fixed direction.
-/

namespace ChessEngine

/-- EMPTY square marker, as in the C define. -/
def EMPTY : Char := ' '

/-- Board update: writing one square of the board function. -/
def setB (b : Int → Int → Char) (r c : Int) (v : Char) : Int → Int → Char :=
  fun r' c' => if r' = r ∧ c' = c then v else b r' c'

/-- In-bounds test for a square, as the C bounds checks spell it. -/
def inB (r c : Int) : Prop := 0 ≤ r ∧ r < 8 ∧ 0 ≤ c ∧ c < 8

instance (r c : Int) : Decidable (inB r c) := by unfold inB; infer_instance

/-- The board coordinates 0..7, as Int. -/
def coordList : List Int := [0, 1, 2, 3, 4, 5, 6, 7]

/-- Row-major list of the 64 board squares, the order of the C double loops. -/
def allSquares : List (Int × Int) :=
  coordList.flatMap fun i => coordList.map fun j => (i, j)

/-- The GameState struct of the C program (board, side to move, castling
rights including the unused legacy duplicates, en-passant target, clocks). -/
structure GameState where
  board : Int → Int → Char
  isWhiteTurn : Bool
  canWhiteCastleKingside : Bool
  canWhiteCastleQueenside : Bool
  canBlackCastleKingside : Bool
  canBlackCastleQueenside : Bool
  whiteCastleKingside : Bool
  whiteCastleQueenside : Bool
  blackCastleKingside : Bool
  blackCastleQueenside : Bool
  enPassantTargetRow : Int
  enPassantTargetCol : Int
  halfmoveClock : Int
  fullmoveNumber : Int

/-- Board of initializeGameState: the standard starting position. -/
def initialBoard : Int → Int → Char := fun r c =>
  if r = 0 then
    if c = 0 ∨ c = 7 then 'r' else if c = 1 ∨ c = 6 then 'n'
    else if c = 2 ∨ c = 5 then 'b' else if c = 3 then 'q'
    else if c = 4 then 'k' else EMPTY
  else if r = 1 then (if 0 ≤ c ∧ c < 8 then 'p' else EMPTY)
  else if r = 6 then (if 0 ≤ c ∧ c < 8 then 'P' else EMPTY)
  else if r = 7 then
    if c = 0 ∨ c = 7 then 'R' else if c = 1 ∨ c = 6 then 'N'
    else if c = 2 ∨ c = 5 then 'B' else if c = 3 then 'Q'
    else if c = 4 then 'K' else EMPTY
  else EMPTY

/-- The GameState produced by initializeGameState. -/
def initialGameState : GameState where
  board := initialBoard
  isWhiteTurn := true
  canWhiteCastleKingside := true
  canWhiteCastleQueenside := true
  canBlackCastleKingside := true
  canBlackCastleQueenside := true
  whiteCastleKingside := true
  whiteCastleQueenside := true
  blackCastleKingside := true
  blackCastleQueenside := true
  enPassantTargetRow := -1
  enPassantTargetCol := -1
  halfmoveClock := 0
  fullmoveNumber := 1

/-- isValidPawnMove: forward one, forward two from start rank, diagonal
capture, en-passant diagonal onto the target square. -/
def isValidPawnMove (s : GameState) (fromRow fromCol toRow toCol : Int) : Bool :=
  let piece := s.board fromRow fromCol
  let direction : Int := if piece.isUpper then -1 else 1
  let startRow : Int := if piece.isUpper then 6 else 1
  if ¬ inB toRow toCol then false
  else if fromCol = toCol ∧ toRow = fromRow + direction ∧ s.board toRow toCol = EMPTY then
    true
  else if fromCol = toCol ∧ fromRow = startRow ∧ toRow = fromRow + 2 * direction then
    decide (s.board (fromRow + direction) fromCol = EMPTY ∧ s.board toRow toCol = EMPTY)
  else if (fromCol - toCol).natAbs = 1 ∧ toRow = fromRow + direction ∧
      s.board toRow toCol ≠ EMPTY ∧
      ((piece.isUpper ∧ (s.board toRow toCol).isLower) ∨
       (piece.isLower ∧ (s.board toRow toCol).isUpper)) then
    true
  else if (fromCol - toCol).natAbs = 1 ∧ toRow = fromRow + direction ∧
      s.board toRow toCol = EMPTY ∧
      toRow = s.enPassantTargetRow ∧ toCol = s.enPassantTargetCol then
    true
  else false

/-- The while-loop of isValidRookMove: walk from the square after the origin
toward the target, failing on out-of-bounds or occupied squares. -/
def rookWalk (b : Int → Int → Char) (toRow toCol rowStep colStep : Int) :
    Nat → Int → Int → Bool
  | 0, _, _ => false
  | fuel + 1, row, col =>
    if row = toRow ∧ col = toCol then true
    else if ¬ inB row col then false
    else if b row col ≠ EMPTY then false
    else rookWalk b toRow toCol rowStep colStep fuel (row + rowStep) (col + colStep)

/-- isValidRookMove: orthogonal, not to the same square, clear path. -/
def isValidRookMove (s : GameState) (fromRow fromCol toRow toCol : Int) : Bool :=
  if fromRow ≠ toRow ∧ fromCol ≠ toCol then false
  else if fromRow = toRow ∧ fromCol = toCol then false
  else
    let rowStep : Int := if toRow > fromRow then 1 else if toRow < fromRow then -1 else 0
    let colStep : Int := if toCol > fromCol then 1 else if toCol < fromCol then -1 else 0
    rookWalk s.board toRow toCol rowStep colStep 16 (fromRow + rowStep) (fromCol + colStep)

/-- isValidKnightMove: the (1,2)/(2,1) offset pattern (the state parameter
is unused, as in the C function). -/
def isValidKnightMove (_s : GameState) (fromRow fromCol toRow toCol : Int) : Bool :=
  let rowDiff := (toRow - fromRow).natAbs
  let colDiff := (toCol - fromCol).natAbs
  decide ((rowDiff = 2 ∧ colDiff = 1) ∨ (rowDiff = 1 ∧ colDiff = 2))

/-- The while-loop of isValidBishopMove; it exits successfully as soon as the
row or the column reaches the target (they coincide on an aligned walk). -/
def bishopWalk (b : Int → Int → Char) (toRow toCol rowStep colStep : Int) :
    Nat → Int → Int → Bool
  | 0, _, _ => false
  | fuel + 1, row, col =>
    if row = toRow ∨ col = toCol then true
    else if ¬ inB row col then false
    else if b row col ≠ EMPTY then false
    else bishopWalk b toRow toCol rowStep colStep fuel (row + rowStep) (col + colStep)

/-- isValidBishopMove: diagonal, not to the same square, clear path. -/
def isValidBishopMove (s : GameState) (fromRow fromCol toRow toCol : Int) : Bool :=
  if (toRow - fromRow).natAbs ≠ (toCol - fromCol).natAbs then false
  else if fromRow = toRow ∧ fromCol = toCol then false
  else
    let rowStep : Int := if toRow > fromRow then 1 else -1
    let colStep : Int := if toCol > fromCol then 1 else -1
    bishopWalk s.board toRow toCol rowStep colStep 16 (fromRow + rowStep) (fromCol + colStep)

/-- isValidQueenMove: rook-or-bishop pattern. -/
def isValidQueenMove (s : GameState) (fromRow fromCol toRow toCol : Int) : Bool :=
  isValidRookMove s fromRow fromCol toRow toCol ||
  isValidBishopMove s fromRow fromCol toRow toCol

/-- The row-major king scan shared by isInCheck, isCheckmate and getPinInfo:
first square holding the given king character, scanning rows then columns. -/
def findKing (b : Int → Int → Char) (kingPiece : Char) : Option (Int × Int) :=
  allSquares.find? fun p => b p.1 p.2 = kingPiece

/-- The per-piece attack dispatch inside isSquareAttacked (the switch body).
Pawns attack only diagonally here; rook/bishop/queen keep their alignment
pre-filters; kings attack adjacent distinct squares. -/
def attackSwitch (s : GameState) (piece : Char) (i j row col : Int) : Bool :=
  let pieceType := piece.toUpper
  if pieceType = 'P' then
    let direction : Int := if piece.isUpper then -1 else 1
    decide ((j - col).natAbs = 1 ∧ row = i + direction)
  else if pieceType = 'R' then
    if i = row ∨ j = col then isValidRookMove s i j row col else false
  else if pieceType = 'N' then
    isValidKnightMove s i j row col
  else if pieceType = 'B' then
    if (i - row).natAbs = (j - col).natAbs then isValidBishopMove s i j row col else false
  else if pieceType = 'Q' then
    if i = row ∨ j = col ∨ (i - row).natAbs = (j - col).natAbs then
      isValidQueenMove s i j row col
    else false
  else if pieceType = 'K' then
    decide ((i - row).natAbs ≤ 1 ∧ (j - col).natAbs ≤ 1 ∧ (i ≠ row ∨ j ≠ col))
  else false

/-- isSquareAttacked, value semantics: some piece of the given colour has an
attack pattern onto the square.  (The C function temporarily flips the
isWhiteTurn flag around the dispatch and restores it; the dispatch reads only
the board, and the state-passing embedding below models the flip itself.) -/
def isSquareAttacked (s : GameState) (row col : Int) (byWhite : Bool) : Bool :=
  allSquares.any fun p =>
    let piece := s.board p.1 p.2
    if piece ≠ EMPTY ∧ (if byWhite then piece.isUpper else piece.isLower) then
      attackSwitch s piece p.1 p.2 row col
    else false

/-- isInCheck: locate the colour's king (first match in row-major order, and
"not found" counts as "not in check"), then ask isSquareAttacked. -/
def isInCheck (s : GameState) (isWhiteKing : Bool) : Bool :=
  let kingPiece := if isWhiteKing then 'K' else 'k'
  match findKing s.board kingPiece with
  | none => false
  | some (kingRow, kingCol) => isSquareAttacked s kingRow kingCol (!isWhiteKing)

/-- isValidCastling.  By the time the loops run, the king is at column 4 of
its back rank and moves two columns, so the two C for-loops range over the
fixed columns unrolled here (between squares 5,6 kingside and 3,2,1
queenside; attack squares 4,5,6 kingside and 4,3,2 queenside). -/
def isValidCastling (s : GameState) (fromRow fromCol toRow toCol : Int) : Bool :=
  let piece := s.board fromRow fromCol
  let isWhite := piece.isUpper
  let isKingSide := toCol > fromCol
  if ¬ (piece.toUpper = 'K' ∧ fromRow = (if isWhite then 7 else 0) ∧ fromCol = 4) then false
  else if ¬ ((toCol - fromCol).natAbs = 2 ∧ toRow = fromRow) then false
  else if isInCheck s isWhite then false
  else if isWhite ∧ isKingSide ∧ ¬ s.canWhiteCastleKingside then false
  else if isWhite ∧ ¬ isKingSide ∧ ¬ s.canWhiteCastleQueenside then false
  else if ¬ isWhite ∧ isKingSide ∧ ¬ s.canBlackCastleKingside then false
  else if ¬ isWhite ∧ ¬ isKingSide ∧ ¬ s.canBlackCastleQueenside then false
  else
    let rookCol : Int := if isKingSide then 7 else 0
    let expectedRook := if isWhite then 'R' else 'r'
    if s.board fromRow rookCol ≠ expectedRook then false
    else if isKingSide then
      decide (s.board fromRow 5 = EMPTY ∧ s.board fromRow 6 = EMPTY) &&
      !(isSquareAttacked s fromRow 4 (!isWhite)) &&
      !(isSquareAttacked s fromRow 5 (!isWhite)) &&
      !(isSquareAttacked s fromRow 6 (!isWhite))
    else
      decide (s.board fromRow 3 = EMPTY ∧ s.board fromRow 2 = EMPTY ∧
              s.board fromRow 1 = EMPTY) &&
      !(isSquareAttacked s fromRow 4 (!isWhite)) &&
      !(isSquareAttacked s fromRow 3 (!isWhite)) &&
      !(isSquareAttacked s fromRow 2 (!isWhite))

/-- isValidKingMove: one step any direction (the same-square case is later
rejected by the friendly-destination check of isValidMove), or a two-column
castle delegated to isValidCastling. -/
def isValidKingMove (s : GameState) (fromRow fromCol toRow toCol : Int) : Bool :=
  if (toRow - fromRow).natAbs ≤ 1 ∧ (toCol - fromCol).natAbs ≤ 1 then true
  else if (fromCol - toCol).natAbs = 2 ∧ fromRow = toRow then
    isValidCastling s fromRow fromCol toRow toCol
  else false

/-- PinInfo struct: pinned flag, pin direction, pinning piece square. -/
structure PinInfo where
  isPinned : Bool
  pinDirR : Int
  pinDirC : Int
  pinningPieceRow : Int
  pinningPieceCol : Int
deriving DecidableEq

/-- PinInfo value for "not pinned", as getPinInfo initializes it. -/
def noPin : PinInfo := ⟨false, 0, 0, -1, -1⟩

/-- Sign of an Int, as the C code computes it by dr / abs(dr). -/
def intSign (d : Int) : Int := if d > 0 then 1 else if d < 0 then -1 else 0

/-- The while-loop of getPinInfo: starting one step beyond the king (in the
direction from the queried piece toward the king, extended), walk until the
first occupied square; report a pin when that square holds an enemy slider
matching the ray direction. -/
def pinScan (s : GameState) (isWhitePiece : Bool) (stepR stepC : Int) :
    Nat → Int → Int → PinInfo
  | 0, _, _ => noPin
  | fuel + 1, checkRow, checkCol =>
    if ¬ inB checkRow checkCol then noPin
    else
      let checkPiece := s.board checkRow checkCol
      if checkPiece ≠ EMPTY then
        let isEnemyPiece := (isWhitePiece ∧ checkPiece.isLower) ∨
                            (¬ isWhitePiece ∧ checkPiece.isUpper)
        if isEnemyPiece then
          let pieceType := checkPiece.toUpper
          let canPin := ((stepR = 0 ∨ stepC = 0) ∧ (pieceType = 'R' ∨ pieceType = 'Q')) ∨
                        (stepR.natAbs = stepC.natAbs ∧ (pieceType = 'B' ∨ pieceType = 'Q'))
          if canPin then ⟨true, stepR, stepC, checkRow, checkCol⟩ else noPin
        else noPin
      else pinScan s isWhitePiece stepR stepC fuel (checkRow + stepR) (checkCol + stepC)

/-- getPinInfo: align the queried piece with its own king, then scan past the
king along the piece-to-king direction for the first occupied square.  (The
C locals dr, dc, stepR, stepC are inlined: dr = kp.1 - row, dc = kp.2 - col,
and the steps are their signs, which the C computes as dr / abs(dr).) -/
def getPinInfo (s : GameState) (row col : Int) : PinInfo :=
  if s.board row col = EMPTY then noPin
  else
    (findKing s.board (if (s.board row col).isUpper then 'K' else 'k')).elim noPin
      (fun kp =>
        if ¬ (kp.1 - row = 0 ∨ kp.2 - col = 0 ∨
              (kp.1 - row).natAbs = (kp.2 - col).natAbs) then noPin
        else
          pinScan s (s.board row col).isUpper
            (intSign (kp.1 - row)) (intSign (kp.2 - col)) 16
            (kp.1 + intSign (kp.1 - row)) (kp.2 + intSign (kp.2 - col)))

/-- isMoveAlongPinRay: the normalized move direction equals the pin direction
or its opposite (trivially true when not pinned). -/
def isMoveAlongPinRay (fromRow fromCol toRow toCol : Int) (pin : PinInfo) : Bool :=
  if ¬ pin.isPinned then true
  else
    let mR := intSign (toRow - fromRow)
    let mC := intSign (toCol - fromCol)
    decide ((mR = pin.pinDirR ∧ mC = pin.pinDirC) ∨ (mR = -pin.pinDirR ∧ mC = -pin.pinDirC))

/-- doesMovePutKingInCheck, value semantics: play the plain from-to board
mutation, test check for the side to move.  (The C function then reverts the
two writes; the state-passing embedding models the revert.) -/
def doesMovePutKingInCheck (s : GameState) (fromRow fromCol toRow toCol : Int) : Bool :=
  let b1 := setB s.board toRow toCol (s.board fromRow fromCol)
  let b2 := setB b1 fromRow fromCol EMPTY
  isInCheck { s with board := b2 } s.isWhiteTurn

/-- The piece-kind switch of isValidMove; the default case of the C switch
returns false (it also returns directly out of isValidMove there, which the
separate unknown-piece test in isValidMove reproduces). -/
def pieceDispatch (s : GameState) (piece : Char) (fromRow fromCol toRow toCol : Int) : Bool :=
  if piece.toUpper = 'P' then isValidPawnMove s fromRow fromCol toRow toCol
  else if piece.toUpper = 'R' then isValidRookMove s fromRow fromCol toRow toCol
  else if piece.toUpper = 'N' then isValidKnightMove s fromRow fromCol toRow toCol
  else if piece.toUpper = 'B' then isValidBishopMove s fromRow fromCol toRow toCol
  else if piece.toUpper = 'Q' then isValidQueenMove s fromRow fromCol toRow toCol
  else if piece.toUpper = 'K' then isValidKingMove s fromRow fromCol toRow toCol
  else false

/-- Whether the char is one of the six piece letters isValidMove dispatches
on (its switch default returns false for anything else). -/
def knownPiece (piece : Char) : Prop :=
  piece.toUpper = 'P' ∨ piece.toUpper = 'R' ∨ piece.toUpper = 'N' ∨
  piece.toUpper = 'B' ∨ piece.toUpper = 'Q' ∨ piece.toUpper = 'K'

instance (piece : Char) : Decidable (knownPiece piece) := by
  unfold knownPiece; infer_instance

/-- isValidMove: bounds, source piece of the side to move, no friendly
destination, per-piece pattern, pin-ray restriction, self-check guard. -/
def isValidMove (s : GameState) (fromRow fromCol toRow toCol : Int) : Bool :=
  if ¬ (inB fromRow fromCol ∧ inB toRow toCol) then false
  else if s.board fromRow fromCol = EMPTY then false
  else if s.isWhiteTurn ∧ ¬ (s.board fromRow fromCol).isUpper then false
  else if ¬ s.isWhiteTurn ∧ (s.board fromRow fromCol).isUpper then false
  else if s.isWhiteTurn ∧ (s.board toRow toCol).isUpper then false
  else if ¬ s.isWhiteTurn ∧ (s.board toRow toCol).isLower then false
  else if ¬ knownPiece (s.board fromRow fromCol) then false
  else if ¬ pieceDispatch s (s.board fromRow fromCol) fromRow fromCol toRow toCol then false
  else if (getPinInfo s fromRow fromCol).isPinned ∧
      ¬ isMoveAlongPinRay fromRow fromCol toRow toCol (getPinInfo s fromRow fromCol) then
    false
  else if doesMovePutKingInCheck s fromRow fromCol toRow toCol then false
  else true

/-- promotePawn with the interactively scanf-ed piece letter supplied as the
parameter choice (the C function loops on stdin until one of Q/R/B/N is
typed; the eventual uppercase letter is the parameter here). -/
def promotePawnWith (s : GameState) (row col : Int) (choice : Char) : GameState :=
  if (s.board row col).isUpper then
    { s with board := setB s.board row col choice }
  else
    { s with board := setB s.board row col choice.toLower }

/-- updateCastlingRights: reads the piece already moved to the destination,
drops rights for king/rook moves and for captures on the rook home squares.
The C function mutates only the four can-castle flags; the same sequential
if-cascade is applied here to the quadruple (white-kingside,
white-queenside, black-kingside, black-queenside) and the result is written
back in one update, so every other field is untouched by construction. -/
def updateCastlingRights (s : GameState) (fromRow fromCol toRow toCol : Int) : GameState :=
  let piece := s.board toRow toCol
  let f0 := (s.canWhiteCastleKingside, s.canWhiteCastleQueenside,
             s.canBlackCastleKingside, s.canBlackCastleQueenside)
  let f1 :=
    if piece = 'K' then (false, false, f0.2.2.1, f0.2.2.2)
    else if piece = 'k' then (f0.1, f0.2.1, false, false)
    else if piece = 'R' then
      let a := if fromRow = 7 ∧ fromCol = 0 then (f0.1, false, f0.2.2.1, f0.2.2.2) else f0
      if fromRow = 7 ∧ fromCol = 7 then (false, a.2.1, a.2.2.1, a.2.2.2) else a
    else if piece = 'r' then
      let a := if fromRow = 0 ∧ fromCol = 0 then (f0.1, f0.2.1, f0.2.2.1, false) else f0
      if fromRow = 0 ∧ fromCol = 7 then (a.1, a.2.1, false, a.2.2.2) else a
    else f0
  let f2 := if toRow = 0 ∧ toCol = 0 then (f1.1, f1.2.1, f1.2.2.1, false) else f1
  let f3 := if toRow = 0 ∧ toCol = 7 then (f2.1, f2.2.1, false, f2.2.2.2) else f2
  let f4 := if toRow = 7 ∧ toCol = 0 then (f3.1, false, f3.2.2.1, f3.2.2.2) else f3
  let f5 := if toRow = 7 ∧ toCol = 7 then (false, f4.2.1, f4.2.2.1, f4.2.2.2) else f4
  { s with canWhiteCastleKingside := f5.1, canWhiteCastleQueenside := f5.2.1,
           canBlackCastleKingside := f5.2.2.1, canBlackCastleQueenside := f5.2.2.2 }

/-- makeMove: move the piece, then castling rook relocation, en-passant
removal, promotion (promo is the scanf-ed choice), castling rights, reset
and re-arm of the en-passant target, clocks.  The side-to-move flag is
flipped by the caller, not here. -/
def makeMove (s : GameState) (fromRow fromCol toRow toCol : Int) (promo : Char) : GameState :=
  let piece := s.board fromRow fromCol
  let capturedPiece := s.board toRow toCol
  let b1 := setB s.board toRow toCol (s.board fromRow fromCol)
  let b2 := setB b1 fromRow fromCol EMPTY
  let s1 := { s with board := b2 }
  let s2 :=
    if piece.toUpper = 'K' ∧ (fromCol - toCol).natAbs = 2 then
      let rookFromCol : Int := if toCol > fromCol then 7 else 0
      let rookToCol : Int := if toCol > fromCol then toCol - 1 else toCol + 1
      let c1 := setB s1.board toRow rookToCol (s1.board fromRow rookFromCol)
      let c2 := setB c1 fromRow rookFromCol EMPTY
      { s1 with board := c2 }
    else s1
  let s3 :=
    if piece.toUpper = 'P' ∧ toCol = s.enPassantTargetCol ∧ toRow = s.enPassantTargetRow then
      { s2 with board := setB s2.board fromRow toCol EMPTY }
    else s2
  let s4 :=
    if (piece = 'P' ∧ toRow = 0) ∨ (piece = 'p' ∧ toRow = 7) then
      promotePawnWith s3 toRow toCol promo
    else s3
  let s5 := updateCastlingRights s4 fromRow fromCol toRow toCol
  let s6 := { s5 with enPassantTargetRow := -1, enPassantTargetCol := -1 }
  let s7 :=
    if piece.toUpper = 'P' ∧ (fromRow - toRow).natAbs = 2 then
      { s6 with enPassantTargetRow := (fromRow + toRow) / 2, enPassantTargetCol := toCol }
    else s6
  let s8 :=
    if piece.toUpper = 'P' ∨ capturedPiece ≠ EMPTY then
      { s7 with halfmoveClock := 0 }
    else { s7 with halfmoveClock := s7.halfmoveClock + 1 }
  if ¬ s.isWhiteTurn then { s8 with fullmoveNumber := s8.fullmoveNumber + 1 } else s8

/-- isPieceUnderAttack, value semantics: some enemy piece has a full legal
move onto the square, tested with the side-to-move flag temporarily set to
the attacker's colour (the flip-and-restore is modelled statefully below). -/
def isPieceUnderAttack (s : GameState) (row col : Int) : Bool :=
  let piece := s.board row col
  if piece = EMPTY then false
  else
    let isWhitePiece := piece.isUpper
    allSquares.any fun p =>
      let attackingPiece := s.board p.1 p.2
      if attackingPiece ≠ EMPTY ∧
         ((isWhitePiece ∧ attackingPiece.isLower) ∨ (¬ isWhitePiece ∧ attackingPiece.isUpper)) then
        isValidMove { s with isWhiteTurn := attackingPiece.isUpper } p.1 p.2 row col
      else false

/-- isScholarsMateThreat: a white queen on (3,7) and a white bishop on (4,2)
are both on the board. -/
def isScholarsMateThreat (s : GameState) : Bool :=
  (allSquares.any fun p => decide (s.board p.1 p.2 = 'Q' ∧ p.1 = 3 ∧ p.2 = 7)) &&
  (allSquares.any fun p => decide (s.board p.1 p.2 = 'B' ∧ p.1 = 4 ∧ p.2 = 2))

/-- Material value table used by scoreMoveForOrdering. -/
def mvvValue (c : Char) : Int :=
  if c = 'P' then 100 else if c = 'N' ∨ c = 'B' then 300
  else if c = 'R' then 500 else if c = 'Q' then 900 else 0

/-- scoreMoveForOrdering, value semantics: MVV-LVA capture bonus, the two
hardcoded black-knight square bonuses, check bonus and Scholar's-Mate
counter bonus evaluated on the temporarily mutated board, centre bonus,
escaping-attack bonus. -/
def scoreMoveForOrdering (s : GameState) (fromRow fromCol toRow toCol : Int) : Int :=
  let movingPiece := s.board fromRow fromCol
  let capturedPiece := s.board toRow toCol
  let captureScore : Int :=
    if capturedPiece ≠ EMPTY then
      mvvValue capturedPiece.toUpper - mvvValue movingPiece.toUpper / 10
    else 0
  let knightScore : Int :=
    (if movingPiece = 'n' ∧ toRow = 3 ∧ toCol = 7 then 5000 else 0) +
    (if movingPiece = 'n' ∧ toRow = 2 ∧ toCol = 5 then 1000 else 0)
  let simBoard := setB (setB s.board toRow toCol (s.board fromRow fromCol)) fromRow fromCol EMPTY
  let sim := { s with board := simBoard }
  let checkScore : Int := if isInCheck sim (!s.isWhiteTurn) then 50 else 0
  let mateDefScore : Int := if ¬ s.isWhiteTurn ∧ isScholarsMateThreat sim then 2000 else 0
  let centerScore : Int := if 3 ≤ toRow ∧ toRow ≤ 4 ∧ 3 ≤ toCol ∧ toCol ≤ 4 then 10 else 0
  let escapeScore : Int := if isPieceUnderAttack s fromRow fromCol then 20 else 0
  captureScore + knightScore + checkScore + mateDefScore + centerScore + escapeScore

/-- MoveList: the bounded (256) move array plus the parallel ordering-score
array, as parallel lists. -/
structure MoveList where
  moves : List (Int × Int × Int × Int)
  scores : List Int

/-- generateAllMoves, value semantics: every from-square of the side to
move, every to-square, filtered by isValidMove, each scored, capacity 256. -/
def generateAllMoves (s : GameState) : MoveList :=
  allSquares.foldl
    (fun ml p =>
      let piece := s.board p.1 p.2
      if (s.isWhiteTurn ∧ piece.isUpper) ∨ (¬ s.isWhiteTurn ∧ piece.isLower) then
        allSquares.foldl
          (fun ml q =>
            if isValidMove s p.1 p.2 q.1 q.2 then
              if ml.moves.length < 256 then
                { moves := ml.moves ++ [(p.1, p.2, q.1, q.2)],
                  scores := ml.scores ++ [scoreMoveForOrdering s p.1 p.2 q.1 q.2] }
              else ml
            else ml)
          ml
      else ml)
    ⟨[], []⟩

/-- The nine-neighbourhood escape scan of isCheckmate around the king. -/
def kingEscapeExists (s : GameState) (kingRow kingCol : Int) : Bool :=
  [(-1 : Int), 0, 1].any fun dr =>
    [(-1 : Int), 0, 1].any fun dc =>
      if dr = 0 ∧ dc = 0 then false
      else
        let newRow := kingRow + dr
        let newCol := kingCol + dc
        if inB newRow newCol then isValidMove s kingRow kingCol newRow newCol else false

/-- The non-king scan of isCheckmate: some piece of the side to move other
than the king has a valid move to some square. -/
def otherPieceMoveExists (s : GameState) : Bool :=
  allSquares.any fun p =>
    if (s.isWhiteTurn ∧ (s.board p.1 p.2).isUpper) ∨
       (¬ s.isWhiteTurn ∧ (s.board p.1 p.2).isLower) then
      if (s.board p.1 p.2).toUpper = 'K' then false
      else allSquares.any fun q => isValidMove s p.1 p.2 q.1 q.2
    else false

/-- The escape scan of isCheckmate starting from the first-found king (no
king found counts as no escape). -/
def kingEscapeScan (s : GameState) : Bool :=
  match findKing s.board (if s.isWhiteTurn then 'K' else 'k') with
  | none => false
  | some kp => kingEscapeExists s kp.1 kp.2

/-- isCheckmate: in check, the king (first found row-major) has no escape
step, and no non-king piece of the side to move has any valid move. -/
def isCheckmate (s : GameState) : Bool :=
  if ¬ isInCheck s s.isWhiteTurn then false
  else if kingEscapeScan s then false
  else !(otherPieceMoveExists s)

/-- The full scan of isStalemate: some piece of the side to move has a
valid move to some square. -/
def anyOwnMoveExists (s : GameState) : Bool :=
  allSquares.any fun p =>
    if (s.isWhiteTurn ∧ (s.board p.1 p.2).isUpper) ∨
       (¬ s.isWhiteTurn ∧ (s.board p.1 p.2).isLower) then
      allSquares.any fun q => isValidMove s p.1 p.2 q.1 q.2
    else false

/-- isStalemate: not in check and no piece of the side to move has a valid
move to any square. -/
def isStalemate (s : GameState) : Bool :=
  if isInCheck s s.isWhiteTurn then false
  else !(anyOwnMoveExists s)

/-- Accumulator of the isInsufficientMaterial board scan. -/
structure MatCount where
  whitePieces : Int
  blackPieces : Int
  whiteKnights : Int
  blackKnights : Int
  whiteBishops : Int
  blackBishops : Int
  whiteBishopSquareColor : Int
  blackBishopSquareColor : Int

/-- The board scan of isInsufficientMaterial; none models the early
"return false" on any pawn, rook or queen. -/
def materialScan (b : Int → Int → Char) : List (Int × Int) → MatCount → Option MatCount
  | [], m => some m
  | p :: rest, m =>
    let piece := b p.1 p.2
    if piece = 'P' ∨ piece = 'R' ∨ piece = 'Q' ∨ piece = 'p' ∨ piece = 'r' ∨ piece = 'q' then
      none
    else
      let m1 :=
        if piece = 'N' then
          { m with whiteKnights := m.whiteKnights + 1, whitePieces := m.whitePieces + 1 }
        else if piece = 'n' then
          { m with blackKnights := m.blackKnights + 1, blackPieces := m.blackPieces + 1 }
        else if piece = 'B' then
          { m with whiteBishops := m.whiteBishops + 1, whitePieces := m.whitePieces + 1,
                   whiteBishopSquareColor := (p.1 + p.2) % 2 }
        else if piece = 'b' then
          { m with blackBishops := m.blackBishops + 1, blackPieces := m.blackPieces + 1,
                   blackBishopSquareColor := (p.1 + p.2) % 2 }
        else if piece = 'K' then { m with whitePieces := m.whitePieces + 1 }
        else if piece = 'k' then { m with blackPieces := m.blackPieces + 1 }
        else m
      materialScan b rest m1

/-- isInsufficientMaterial: K-K, K+minor-K, same-colour-bishop K+B-K+B,
K+N-K+N; false as soon as any pawn, rook or queen is seen. -/
def isInsufficientMaterial (s : GameState) : Bool :=
  match materialScan s.board allSquares ⟨0, 0, 0, 0, 0, 0, -1, -1⟩ with
  | none => false
  | some m =>
    if m.whitePieces = 1 ∧ m.blackPieces = 1 then true
    else if (m.whitePieces = 2 ∧ m.blackPieces = 1 ∧ (m.whiteBishops = 1 ∨ m.whiteKnights = 1)) ∨
            (m.blackPieces = 2 ∧ m.whitePieces = 1 ∧ (m.blackBishops = 1 ∨ m.blackKnights = 1)) then
      true
    else if m.whitePieces = 2 ∧ m.blackPieces = 2 ∧ m.whiteBishops = 1 ∧ m.blackBishops = 1 ∧
            m.whiteBishopSquareColor = m.blackBishopSquareColor then
      true
    else if m.whitePieces = 2 ∧ m.blackPieces = 2 ∧ m.whiteKnights = 1 ∧ m.blackKnights = 1 then
      true
    else false

/-- isThreefoldRepetition: unimplemented in the source, constantly false. -/
def isThreefoldRepetition (_s : GameState) : Bool := false

/-- isFiftyMoveRule: halfmove clock at or past 100. -/
def isFiftyMoveRule (s : GameState) : Bool := s.halfmoveClock ≥ 100

/-- isDraw: stalemate, insufficient material, fifty-move rule, or (the
constantly false) threefold repetition. -/
def isDraw (s : GameState) : Bool :=
  isStalemate s || isInsufficientMaterial s || isFiftyMoveRule s || isThreefoldRepetition s

/-- isGameOver: checkmate, stalemate or draw. -/
def isGameOver (s : GameState) : Bool :=
  isCheckmate s || isStalemate s || isDraw s

/-- One rank of the FEN piece-placement field: pieces interleaved with
run-length counts of empty squares. -/
def fenRank (b : Int → Int → Char) (rank : Int) : List Char :=
  let step := fun (acc : List Char × Nat) (file : Nat) =>
    let piece := b rank (file : Int)
    if piece = EMPTY then (acc.1, acc.2 + 1)
    else (acc.1 ++ (if acc.2 > 0 then [Char.ofNat ('0'.toNat + acc.2)] else []) ++ [piece], 0)
  let r := (List.range 8).foldl step ([], 0)
  r.1 ++ (if r.2 > 0 then [Char.ofNat ('0'.toNat + r.2)] else [])

/-- The castling-availability field of the FEN record. -/
def fenCastling (s : GameState) : List Char :=
  let l :=
    (if s.canWhiteCastleKingside then ['K'] else []) ++
    (if s.canWhiteCastleQueenside then ['Q'] else []) ++
    (if s.canBlackCastleKingside then ['k'] else []) ++
    (if s.canBlackCastleQueenside then ['q'] else [])
  if l.isEmpty then ['-'] else l

/-- gameStateToFEN: placement ranks joined by slashes, active colour,
castling letters, en-passant target, halfmove clock, fullmove number,
space-separated. -/
def gameStateToFEN (s : GameState) : List Char :=
  let boardPart := List.intercalate ['/'] ((List.range 8).map fun rank => fenRank s.board (rank : Int))
  let epPart :=
    if s.enPassantTargetRow ≠ -1 ∧ s.enPassantTargetCol ≠ -1 then
      [Char.ofNat ('a'.toNat + s.enPassantTargetCol.toNat),
       Char.ofNat ('8'.toNat - s.enPassantTargetRow.toNat)]
    else ['-']
  boardPart ++ [' '] ++ [if s.isWhiteTurn then 'w' else 'b'] ++ [' '] ++ fenCastling s ++
  [' '] ++ epPart ++ [' '] ++ (toString s.halfmoveClock).toList ++
  [' '] ++ (toString s.fullmoveNumber).toList

/-- Models the pointer step "if (*ptr == ' ') ptr++" of fenToGameState. -/
def skipSpace : List Char → List Char
  | ' ' :: rest => rest
  | l => l

/-- The piece-placement parsing loop of fenToGameState: slashes advance the
rank, digits skip files, letters are placed when in range; stops before the
field separator. -/
def parseBoardLoop : List Char → (Int → Int → Char) → Int → Int →
    ((Int → Int → Char) × List Char)
  | [], b, _, _ => (b, [])
  | c :: rest, b, rank, file =>
    if c = ' ' then (b, c :: rest)
    else if c = '/' then parseBoardLoop rest b (rank + 1) 0
    else if c.isDigit then parseBoardLoop rest b rank (file + ((c.toNat : Int) - '0'.toNat))
    else if rank < 8 ∧ file < 8 then
      parseBoardLoop rest (setB b rank file c) rank (file + 1)
    else parseBoardLoop rest b rank file

/-- The castling-rights parsing loop of fenToGameState. -/
def parseCastlingLoop : List Char → (Bool × Bool × Bool × Bool) →
    ((Bool × Bool × Bool × Bool) × List Char)
  | [], f => (f, [])
  | c :: rest, f =>
    if c = ' ' then (f, c :: rest)
    else
      let f1 :=
        if c = 'K' then (true, f.2.1, f.2.2.1, f.2.2.2)
        else if c = 'Q' then (f.1, true, f.2.2.1, f.2.2.2)
        else if c = 'k' then (f.1, f.2.1, true, f.2.2.2)
        else if c = 'q' then (f.1, f.2.1, f.2.2.1, true)
        else f
      parseCastlingLoop rest f1

/-- The en-passant field parser of fenToGameState. -/
def parseEp : List Char → ((Int × Int) × List Char)
  | [] => ((-1, -1), [])
  | c :: rest =>
    if c = '-' then ((-1, -1), rest)
    else if 'a' ≤ c ∧ c ≤ 'h' then
      let col : Int := (c.toNat : Int) - 'a'.toNat
      match rest with
      | [] => ((-1, col), [])
      | d :: rest2 =>
        if '1' ≤ d ∧ d ≤ '8' then ((('8'.toNat : Int) - d.toNat, col), rest2)
        else ((-1, col), d :: rest2)
    else ((-1, -1), c :: rest)

/-- The digit-accumulation loop of fenToGameState, started from the given
initial value (0 for the halfmove clock, 1 for the fullmove number). -/
def parseIntLoop : List Char → Int → (Int × List Char)
  | [], acc => (acc, [])
  | c :: rest, acc =>
    if c.isDigit then parseIntLoop rest (acc * 10 + ((c.toNat : Int) - '0'.toNat))
    else (acc, c :: rest)

/-- fenToGameState: zero-initialized state, then the six parsing phases.
The C function unconditionally returns true; the reconstructed state is the
value here. -/
def fenToGameState (fen : List Char) : GameState :=
  let r1 := parseBoardLoop fen (fun _ _ => EMPTY) 0 0
  let l1 := skipSpace r1.2
  let whiteTurn := match l1 with | c :: _ => c = 'w' | [] => false
  let l2 := skipSpace (match l1 with | _ :: rest => rest | [] => [])
  let r3 := parseCastlingLoop l2 (false, false, false, false)
  let l3 := skipSpace r3.2
  let r4 := parseEp l3
  let l4 := skipSpace r4.2
  let r5 := parseIntLoop l4 0
  let l5 := skipSpace r5.2
  let r6 := parseIntLoop l5 1
  { board := r1.1
    isWhiteTurn := whiteTurn
    canWhiteCastleKingside := r3.1.1
    canWhiteCastleQueenside := r3.1.2.1
    canBlackCastleKingside := r3.1.2.2.1
    canBlackCastleQueenside := r3.1.2.2.2
    whiteCastleKingside := r3.1.1
    whiteCastleQueenside := r3.1.2.1
    blackCastleKingside := r3.1.2.2.1
    blackCastleQueenside := r3.1.2.2.2
    enPassantTargetRow := r4.1.1
    enPassantTargetCol := r4.1.2
    halfmoveClock := r5.1
    fullmoveNumber := r6.1 }

/-- Board builder for concrete test positions: squares listed as
(row, column, piece), every other square EMPTY. -/
def boardOfList (l : List (Int × Int × Char)) : Int → Int → Char :=
  fun r c => ((l.find? fun e => e.1 = r ∧ e.2.1 = c).map (fun e => e.2.2)).getD EMPTY

/-- GameState builder for concrete test positions; castling rights all on,
no en-passant target, zero clocks. -/
def mkState (l : List (Int × Int × Char)) (wt : Bool) : GameState where
  board := boardOfList l
  isWhiteTurn := wt
  canWhiteCastleKingside := true
  canWhiteCastleQueenside := true
  canBlackCastleKingside := true
  canBlackCastleQueenside := true
  whiteCastleKingside := true
  whiteCastleQueenside := true
  blackCastleKingside := true
  blackCastleQueenside := true
  enPassantTargetRow := -1
  enPassantTargetCol := -1
  halfmoveClock := 0
  fullmoveNumber := 1

/-- Position witnessing the en-passant gap of the self-check guard: white
king (3,7) and pawn (3,4); black rook (3,0), pawn (3,3) that just
double-stepped (so the en-passant target is (2,3)), king (0,4); white to
move.  The black pawn shields the white king from the rook along row 3. -/
def epExposedState : GameState :=
  { mkState [(3, 7, 'K'), (3, 4, 'P'), (3, 0, 'r'), (3, 3, 'p'), (0, 4, 'k')] true with
      enPassantTargetRow := 2
      enPassantTargetCol := 3 }

/-- Position for the en-passant witness: white pawn (3,4) and king (7,4),
black pawn (3,3) just double-stepped (en-passant target (2,3)) and king
(0,4); white to move. -/
def epWitnessState : GameState :=
  { mkState [(3, 4, 'P'), (7, 4, 'K'), (3, 3, 'p'), (0, 4, 'k')] true with
      enPassantTargetRow := 2
      enPassantTargetCol := 3 }

/-- Position before the black double step used in the en-passant witness. -/
def epBeforeState : GameState :=
  mkState [(1, 3, 'p'), (3, 4, 'P'), (7, 4, 'K'), (0, 4, 'k')] false

/-- Position for the checkmate witness: white king (7,7), black queen
(6,6) guarded by the black king (5,6); white to move and checkmated. -/
def mateState : GameState :=
  mkState [(7, 7, 'K'), (6, 6, 'q'), (5, 6, 'k')] true


/-- Friendly-versus-enemy piece relation (used by the specification-side pin
definition below). -/
def enemyOf (mine other : Char) : Prop :=
  (mine.isUpper ∧ other.isLower) ∨ (mine.isLower ∧ other.isUpper)

instance (mine other : Char) : Decidable (enemyOf mine other) := by
  unfold enemyOf; infer_instance

/-- Whether a piece letter is a slider able to attack along the given ray
direction (rook or queen on a rank or file, bishop or queen on a diagonal). -/
def sliderOnRay (piece : Char) (dr dc : Int) : Prop :=
  ((dr = 0 ∨ dc = 0) ∧ (piece.toUpper = 'R' ∨ piece.toUpper = 'Q')) ∨
  (dr.natAbs = dc.natAbs ∧ (piece.toUpper = 'B' ∨ piece.toUpper = 'Q'))

instance (piece : Char) (dr dc : Int) : Decidable (sliderOnRay piece dr dc) := by
  unfold sliderOnRay; infer_instance

/-- Modelled from the claim's words, not from the code: the piece on
(row, col) sits strictly between its own king and an aligned enemy slider,
with every square between king and slider other than the piece itself
empty. -/
def pinnedSpec (s : GameState) (row col : Int) : Prop :=
  s.board row col ≠ EMPTY ∧
  ∃ kr ∈ coordList, ∃ kc ∈ coordList, ∃ qr ∈ coordList, ∃ qc ∈ coordList,
    s.board kr kc = (if (s.board row col).isUpper then 'K' else 'k') ∧
    enemyOf (s.board row col) (s.board qr qc) ∧
    sliderOnRay (s.board qr qc) (qr - kr) (qc - kc) ∧
    (∃ n ∈ coordList, 0 < n ∧
      n < ((max (qr - kr).natAbs (qc - kc).natAbs : Nat) : Int) ∧
      row = kr + n * intSign (qr - kr) ∧ col = kc + n * intSign (qc - kc)) ∧
    (∀ t ∈ coordList, 0 < t →
      t < ((max (qr - kr).natAbs (qc - kc).natAbs : Nat) : Int) →
      ¬ (kr + t * intSign (qr - kr) = row ∧ kc + t * intSign (qc - kc) = col) →
      s.board (kr + t * intSign (qr - kr)) (kc + t * intSign (qc - kc)) = EMPTY)

instance (s : GameState) (row col : Int) : Decidable (pinnedSpec s row col) := by
  unfold pinnedSpec; infer_instance

/-- Position refuting the claimed pin characterization: the white rook
(2,4) is NOT between the white king (4,4) and the black queen (6,4) — the
king is between rook and queen — yet getPinInfo reports the rook pinned,
because its scan walks away from the rook, past the king. -/
def pinCxState : GameState :=
  mkState [(4, 4, 'K'), (2, 4, 'R'), (6, 4, 'q'), (0, 0, 'k')] true

/-- Conditions at step k of the getPinInfo scan: the square k steps from
the anchor is on the board, occupied, enemy, and a slider matching the ray
direction. -/
def pinHit (s : GameState) (w : Bool) (sr sc r0 c0 : Int) (k : Nat) : Prop :=
  inB (r0 + k * sr) (c0 + k * sc) ∧
  s.board (r0 + k * sr) (c0 + k * sc) ≠ EMPTY ∧
  ((w ∧ (s.board (r0 + k * sr) (c0 + k * sc)).isLower) ∨
   (¬ w ∧ (s.board (r0 + k * sr) (c0 + k * sc)).isUpper)) ∧
  (((sr = 0 ∨ sc = 0) ∧
    ((s.board (r0 + k * sr) (c0 + k * sc)).toUpper = 'R' ∨
     (s.board (r0 + k * sr) (c0 + k * sc)).toUpper = 'Q')) ∨
   (sr.natAbs = sc.natAbs ∧
    ((s.board (r0 + k * sr) (c0 + k * sc)).toUpper = 'B' ∨
     (s.board (r0 + k * sr) (c0 + k * sc)).toUpper = 'Q')))

/-- All getPinInfo scan squares strictly before step k are on the board and
empty. -/
def pinClearBefore (s : GameState) (sr sc r0 c0 : Int) (k : Nat) : Prop :=
  ∀ j : Nat, j < k →
    inB (r0 + j * sr) (c0 + j * sc) ∧ s.board (r0 + j * sr) (c0 + j * sc) = EMPTY


/-- PAWN_VALUE .. QUEEN_VALUE; the king is not counted as material. -/
def pieceValueOf (piece : Char) : Int :=
  if piece.toUpper = 'P' then 100
  else if piece.toUpper = 'N' then 300
  else if piece.toUpper = 'B' then 300
  else if piece.toUpper = 'R' then 500
  else if piece.toUpper = 'Q' then 900
  else 0

/-- Row-major table lookup for the six piece-square tables (only queried at
on-board coordinates). -/
def tableAt (t : List (List Int)) (r c : Int) : Int :=
  ((t.getD r.toNat []).getD c.toNat 0)

/-- pawnPositionValues. -/
def pawnTable : List (List Int) :=
  [[0, 0, 0, 0, 0, 0, 0, 0],
   [50, 50, 50, 50, 50, 50, 50, 50],
   [10, 10, 20, 30, 30, 20, 10, 10],
   [5, 5, 10, 25, 25, 10, 5, 5],
   [0, 0, 0, 20, 20, 0, 0, 0],
   [5, -5, -10, 0, 0, -10, -5, 5],
   [5, 10, 10, -20, -20, 10, 10, 5],
   [0, 0, 0, 0, 0, 0, 0, 0]]

/-- knightPositionValues. -/
def knightTable : List (List Int) :=
  [[-50, -40, -30, -30, -30, -30, -40, -50],
   [-40, -20, 0, 0, 0, 0, -20, -40],
   [-30, 0, 10, 15, 15, 10, 0, -30],
   [-30, 5, 15, 20, 20, 15, 5, -30],
   [-30, 0, 15, 20, 20, 15, 0, -30],
   [-30, 5, 10, 15, 15, 10, 5, -30],
   [-40, -20, 0, 5, 5, 0, -20, -40],
   [-50, -40, -30, -30, -30, -30, -40, -50]]

/-- bishopPositionValues. -/
def bishopTable : List (List Int) :=
  [[-20, -10, -10, -10, -10, -10, -10, -20],
   [-10, 0, 0, 0, 0, 0, 0, -10],
   [-10, 0, 5, 10, 10, 5, 0, -10],
   [-10, 5, 5, 10, 10, 5, 5, -10],
   [-10, 0, 10, 10, 10, 10, 0, -10],
   [-10, 10, 10, 10, 10, 10, 10, -10],
   [-10, 5, 0, 0, 0, 0, 5, -10],
   [-20, -10, -10, -10, -10, -10, -10, -20]]

/-- rookPositionValues. -/
def rookTable : List (List Int) :=
  [[0, 0, 0, 0, 0, 0, 0, 0],
   [5, 10, 10, 10, 10, 10, 10, 5],
   [-5, 0, 0, 0, 0, 0, 0, -5],
   [-5, 0, 0, 0, 0, 0, 0, -5],
   [-5, 0, 0, 0, 0, 0, 0, -5],
   [-5, 0, 0, 0, 0, 0, 0, -5],
   [-5, 0, 0, 0, 0, 0, 0, -5],
   [0, 0, 0, 5, 5, 0, 0, 0]]

/-- queenPositionValues. -/
def queenTable : List (List Int) :=
  [[-20, -10, -10, -5, -5, -10, -10, -20],
   [-10, 0, 0, 0, 0, 0, 0, -10],
   [-10, 0, 5, 5, 5, 5, 0, -10],
   [-5, 0, 5, 5, 5, 5, 0, -5],
   [0, 0, 5, 5, 5, 5, 0, -5],
   [-10, 5, 5, 5, 5, 5, 0, -10],
   [-10, 0, 5, 0, 0, 0, 0, -10],
   [-20, -10, -10, -5, -5, -10, -10, -20]]

/-- kingPositionValues. -/
def kingTable : List (List Int) :=
  [[-30, -40, -40, -50, -50, -40, -40, -30],
   [-30, -40, -40, -50, -50, -40, -40, -30],
   [-30, -40, -40, -50, -50, -40, -40, -30],
   [-30, -40, -40, -50, -50, -40, -40, -30],
   [-20, -30, -30, -40, -40, -30, -30, -20],
   [-10, -20, -20, -20, -20, -20, -20, -10],
   [20, 20, 0, 0, 0, 0, 20, 20],
   [20, 30, 10, 0, 0, 10, 30, 20]]

/-- The piece-square bonus of evaluateBoard's switch (default case 0). -/
def positionValueOf (piece : Char) (r c : Int) : Int :=
  if piece.toUpper = 'P' then tableAt pawnTable r c
  else if piece.toUpper = 'N' then tableAt knightTable r c
  else if piece.toUpper = 'B' then tableAt bishopTable r c
  else if piece.toUpper = 'R' then tableAt rookTable r c
  else if piece.toUpper = 'Q' then tableAt queenTable r c
  else if piece.toUpper = 'K' then tableAt kingTable r c
  else 0

/-- The centre-control bonus loop of evaluateBoard (rows 3..4, cols 3..4). -/
def centerBonus (s : GameState) : Int :=
  (([((3 : Int), (3 : Int)), (3, 4), (4, 3), (4, 4)]).map fun p =>
    if (s.board p.1 p.2).isUpper then (20 : Int)
    else if (s.board p.1 p.2).isLower then -20 else 0).sum

/-- One column of evaluatePawnStructure: doubled- and isolated-pawn terms. -/
def pawnStructCol (s : GameState) (c : Int) : Int :=
  let w : Int := (coordList.countP fun r => s.board r c = 'P' : Nat)
  let b : Int := (coordList.countP fun r => s.board r c = 'p' : Nat)
  let wIso : Prop := ¬ ∃ a ∈ [c - 1, c + 1], 0 ≤ a ∧ a < 8 ∧ ∃ r ∈ coordList, s.board r a = 'P'
  let bIso : Prop := ¬ ∃ a ∈ [c - 1, c + 1], 0 ≤ a ∧ a < 8 ∧ ∃ r ∈ coordList, s.board r a = 'p'
  (if w > 1 then -(10 * (w - 1)) else 0) + (if b > 1 then 10 * (b - 1) else 0) +
  (if w > 0 ∧ wIso then -15 else 0) + (if b > 0 ∧ bIso then 15 else 0)

/-- evaluatePawnStructure: column-wise doubled/isolated pawn terms (pure:
the C function only reads the board). -/
def evaluatePawnStructure (s : GameState) : Int :=
  (coordList.map (pawnStructCol s)).sum

/-- The king search of evaluateKingSafety keeps scanning without a break,
so the last matching square wins. -/
def findKingLast (b : Int → Int → Char) (kingPiece : Char) : Option (Int × Int) :=
  allSquares.foldl (fun acc p => if b p.1 p.2 = kingPiece then some p else acc) none

/-- The pawn-shield term of evaluateKingSafety for the white king. -/
def whiteShield (s : GameState) (kr kc : Int) : Int :=
  (([kc - 1, kc, kc + 1]).map fun c =>
    if 0 ≤ c ∧ c < 8 then
      (if kr > 0 ∧ s.board (kr - 1) c = 'P' then (15 : Int) else 0) +
      (if kr > 1 ∧ s.board (kr - 2) c = 'P' then 10 else 0)
    else 0).sum

/-- The pawn-shield term of evaluateKingSafety for the black king. -/
def blackShield (s : GameState) (kr kc : Int) : Int :=
  (([kc - 1, kc, kc + 1]).map fun c =>
    if 0 ≤ c ∧ c < 8 then
      (if kr < 7 ∧ s.board (kr + 1) c = 'p' then (-15 : Int) else 0) +
      (if kr < 6 ∧ s.board (kr + 2) c = 'p' then -10 else 0)
    else 0).sum

/-- evaluateScholarsMateDefense (pure board reads). -/
def evaluateScholarsMateDefense (s : GameState) : Int :=
  if ¬ s.isWhiteTurn then
    (if s.board 2 5 = 'n' then (300 : Int) else 0) +
    (if isScholarsMateThreat s then
      (-1000 : Int) + (if s.board 3 7 = 'Q' ∧ s.board 2 5 = 'n' then 2000 else 0)
    else 0)
  else 0

/-- State-passing isSquareAttacked loop body: the C function saves the
turn flag, sets it to the attacker's colour around the switch, restores it,
and returns early on the first attack found. -/
def isSquareAttackedLoop (row col : Int) (byWhite : Bool) :
    List (Int × Int) → GameState → Bool × GameState
  | [], st => (false, st)
  | p :: rest, st =>
    let piece := st.board p.1 p.2
    if piece ≠ EMPTY ∧ (if byWhite then piece.isUpper else piece.isLower) then
      let originalTurn := st.isWhiteTurn
      let st1 := { st with isWhiteTurn := byWhite }
      let validMove := attackSwitch st1 piece p.1 p.2 row col
      let st2 := { st1 with isWhiteTurn := originalTurn }
      if validMove then (true, st2)
      else isSquareAttackedLoop row col byWhite rest st2
    else isSquareAttackedLoop row col byWhite rest st

/-- State-passing isSquareAttacked. -/
def isSquareAttackedS (s : GameState) (row col : Int) (byWhite : Bool) : Bool × GameState :=
  isSquareAttackedLoop row col byWhite allSquares s

/-- State-passing isInCheck (the king search loop only reads the board). -/
def isInCheckS (s : GameState) (isWhiteKing : Bool) : Bool × GameState :=
  match findKing s.board (if isWhiteKing then 'K' else 'k') with
  | none => (false, s)
  | some (kingRow, kingCol) => isSquareAttackedS s kingRow kingCol (!isWhiteKing)

/-- State-passing doesMovePutKingInCheck: play the from-to board mutation,
test check for the side to move, then undo the two writes in reverse. -/
def doesMovePutKingInCheckS (s : GameState) (fromRow fromCol toRow toCol : Int) :
    Bool × GameState :=
  let tempPiece := s.board toRow toCol
  let st1 := { s with
    board := setB (setB s.board toRow toCol (s.board fromRow fromCol)) fromRow fromCol EMPTY }
  match isInCheckS st1 st1.isWhiteTurn with
  | (kingInCheck, st2) =>
    let st3 := { st2 with
      board := setB (setB st2.board fromRow fromCol (st2.board toRow toCol)) toRow toCol
        tempPiece }
    (kingInCheck, st3)

/-- State-passing isValidCastling: the in-check test and the three attack
tests run in the C order with early exits; all other checks are board and
flag reads. -/
def isValidCastlingS (s : GameState) (fromRow fromCol toRow toCol : Int) : Bool × GameState :=
  let piece := s.board fromRow fromCol
  let isWhite := piece.isUpper
  let isKingSide := toCol > fromCol
  if ¬ (piece.toUpper = 'K' ∧ fromRow = (if isWhite then 7 else 0) ∧ fromCol = 4) then
    (false, s)
  else if ¬ ((toCol - fromCol).natAbs = 2 ∧ toRow = fromRow) then (false, s)
  else
    let r1 := isInCheckS s isWhite
    let inCheck := r1.1
    let s1 := r1.2
    if inCheck then (false, s1)
    else if isWhite ∧ isKingSide ∧ ¬ s1.canWhiteCastleKingside then (false, s1)
    else if isWhite ∧ ¬ isKingSide ∧ ¬ s1.canWhiteCastleQueenside then (false, s1)
    else if ¬ isWhite ∧ isKingSide ∧ ¬ s1.canBlackCastleKingside then (false, s1)
    else if ¬ isWhite ∧ ¬ isKingSide ∧ ¬ s1.canBlackCastleQueenside then (false, s1)
    else
      let rookCol : Int := if isKingSide then 7 else 0
      let expectedRook := if isWhite then 'R' else 'r'
      if s1.board fromRow rookCol ≠ expectedRook then (false, s1)
      else if isKingSide then
        if ¬ (s1.board fromRow 5 = EMPTY ∧ s1.board fromRow 6 = EMPTY) then (false, s1)
        else
          let r2 := isSquareAttackedS s1 fromRow 4 (!isWhite)
          if r2.1 then (false, r2.2)
          else
            let r3 := isSquareAttackedS r2.2 fromRow 5 (!isWhite)
            if r3.1 then (false, r3.2)
            else
              let r4 := isSquareAttackedS r3.2 fromRow 6 (!isWhite)
              (!r4.1, r4.2)
      else
        if ¬ (s1.board fromRow 3 = EMPTY ∧ s1.board fromRow 2 = EMPTY ∧
              s1.board fromRow 1 = EMPTY) then (false, s1)
        else
          let r2 := isSquareAttackedS s1 fromRow 4 (!isWhite)
          if r2.1 then (false, r2.2)
          else
            let r3 := isSquareAttackedS r2.2 fromRow 3 (!isWhite)
            if r3.1 then (false, r3.2)
            else
              let r4 := isSquareAttackedS r3.2 fromRow 2 (!isWhite)
              (!r4.1, r4.2)

/-- State-passing isValidKingMove. -/
def isValidKingMoveS (s : GameState) (fromRow fromCol toRow toCol : Int) : Bool × GameState :=
  if (toRow - fromRow).natAbs ≤ 1 ∧ (toCol - fromCol).natAbs ≤ 1 then (true, s)
  else if (fromCol - toCol).natAbs = 2 ∧ fromRow = toRow then
    isValidCastlingS s fromRow fromCol toRow toCol
  else (false, s)

/-- State-passing piece dispatch of isValidMove: only the king case runs
stateful code (castling attack tests). -/
def pieceDispatchS (s : GameState) (piece : Char) (fromRow fromCol toRow toCol : Int) :
    Bool × GameState :=
  if piece.toUpper = 'P' then (isValidPawnMove s fromRow fromCol toRow toCol, s)
  else if piece.toUpper = 'R' then (isValidRookMove s fromRow fromCol toRow toCol, s)
  else if piece.toUpper = 'N' then (isValidKnightMove s fromRow fromCol toRow toCol, s)
  else if piece.toUpper = 'B' then (isValidBishopMove s fromRow fromCol toRow toCol, s)
  else if piece.toUpper = 'Q' then (isValidQueenMove s fromRow fromCol toRow toCol, s)
  else if piece.toUpper = 'K' then isValidKingMoveS s fromRow fromCol toRow toCol
  else (false, s)

/-- State-passing isValidMove: the guards read the state, the dispatch and
the self-check guard thread it. -/
def isValidMoveS (s : GameState) (fromRow fromCol toRow toCol : Int) : Bool × GameState :=
  if ¬ (inB fromRow fromCol ∧ inB toRow toCol) then (false, s)
  else if s.board fromRow fromCol = EMPTY then (false, s)
  else if s.isWhiteTurn ∧ ¬ (s.board fromRow fromCol).isUpper then (false, s)
  else if ¬ s.isWhiteTurn ∧ (s.board fromRow fromCol).isUpper then (false, s)
  else if s.isWhiteTurn ∧ (s.board toRow toCol).isUpper then (false, s)
  else if ¬ s.isWhiteTurn ∧ (s.board toRow toCol).isLower then (false, s)
  else if ¬ knownPiece (s.board fromRow fromCol) then (false, s)
  else
    let r1 := pieceDispatchS s (s.board fromRow fromCol) fromRow fromCol toRow toCol
    let s1 := r1.2
    if ¬ r1.1 then (false, s1)
    else if (getPinInfo s1 fromRow fromCol).isPinned ∧
        ¬ isMoveAlongPinRay fromRow fromCol toRow toCol (getPinInfo s1 fromRow fromCol) then
      (false, s1)
    else
      let r2 := doesMovePutKingInCheckS s1 fromRow fromCol toRow toCol
      if r2.1 then (false, r2.2) else (true, r2.2)

/-- State-passing isPieceUnderAttack loop: the turn flag is set to the
attacking piece's colour around each full legality query. -/
def pieceAttackLoop (row col : Int) (isWhitePiece : Bool) :
    List (Int × Int) → GameState → Bool × GameState
  | [], st => (false, st)
  | p :: rest, st =>
    let attackingPiece := st.board p.1 p.2
    if attackingPiece ≠ EMPTY ∧
        ((isWhitePiece ∧ attackingPiece.isLower) ∨ (¬ isWhitePiece ∧ attackingPiece.isUpper)) then
      let originalTurn := st.isWhiteTurn
      let st1 := { st with isWhiteTurn := attackingPiece.isUpper }
      let r := isValidMoveS st1 p.1 p.2 row col
      let st3 := { r.2 with isWhiteTurn := originalTurn }
      if r.1 then (true, st3) else pieceAttackLoop row col isWhitePiece rest st3
    else pieceAttackLoop row col isWhitePiece rest st

/-- State-passing isPieceUnderAttack. -/
def isPieceUnderAttackS (s : GameState) (row col : Int) : Bool × GameState :=
  if s.board row col = EMPTY then (false, s)
  else pieceAttackLoop row col (s.board row col).isUpper allSquares s

/-- The attack-count loop of evaluateBoard for one piece: every enemy
square is tried with the turn flag temporarily set to the piece's colour. -/
def evalAttackCountLoop (row col : Int) (white : Bool) :
    List (Int × Int) → Int → GameState → Int × GameState
  | [], acc, st => (acc, st)
  | t :: rest, acc, st =>
    if st.board t.1 t.2 ≠ EMPTY ∧
        (if white then (st.board t.1 t.2).isLower else (st.board t.1 t.2).isUpper) then
      let originalTurn := st.isWhiteTurn
      let st1 := { st with isWhiteTurn := white }
      let r := isValidMoveS st1 row col t.1 t.2
      let st3 := { r.2 with isWhiteTurn := originalTurn }
      evalAttackCountLoop row col white rest (if r.1 then acc + 1 else acc) st3
    else evalAttackCountLoop row col white rest acc st

/-- The per-square loop of evaluateBoard: material and square bonus, attack
counting, and the under-attack adjustment, accumulating
(score, white attacks, black attacks). -/
def evalPieceLoop : List (Int × Int) → Int × Int × Int → GameState → (Int × Int × Int) × GameState
  | [], acc, st => (acc, st)
  | p :: rest, acc, st =>
    let piece := st.board p.1 p.2
    if piece = EMPTY then evalPieceLoop rest acc st
    else
      let pieceValue := pieceValueOf piece
      let positionValue := positionValueOf piece p.1 p.2
      if piece.isUpper then
        let r1 := evalAttackCountLoop p.1 p.2 true allSquares 0 st
        let r2 := isPieceUnderAttackS r1.2 p.1 p.2
        let score1 := acc.1 + pieceValue + positionValue
        let score2 := if r2.1 then score1 - pieceValue / 3 else score1
        evalPieceLoop rest (score2, acc.2.1 + r1.1, acc.2.2) r2.2
      else
        let r1 := evalAttackCountLoop p.1 p.2 false allSquares 0 st
        let r2 := isPieceUnderAttackS r1.2 p.1 p.2
        let score1 := acc.1 - (pieceValue + positionValue)
        let score2 := if r2.1 then score1 + pieceValue / 3 else score1
        evalPieceLoop rest (score2, acc.2.1, acc.2.2 + r1.1) r2.2

/-- State-passing evaluateKingSafety: pawn shields for the last-found
kings, the two in-check adjustments, and the back-rank terms. -/
def evaluateKingSafetyS (s : GameState) : Int × GameState :=
  let wShield :=
    match findKingLast s.board 'K' with
    | none => (0 : Int)
    | some kp => whiteShield s kp.1 kp.2
  let bShield :=
    match findKingLast s.board 'k' with
    | none => (0 : Int)
    | some kp => blackShield s kp.1 kp.2
  let r1 := isInCheckS s true
  let r2 := isInCheckS r1.2 false
  let wBack :=
    match findKingLast r2.2.board 'K' with
    | none => (0 : Int)
    | some kp => if kp.1 ≥ 6 then 50 else -100
  let bBack :=
    match findKingLast r2.2.board 'k' with
    | none => (0 : Int)
    | some kp => if kp.1 ≤ 1 then -50 else 100
  (wShield + bShield + (if r1.1 then -500 else 0) + (if r2.1 then 500 else 0) +
    wBack + bBack, r2.2)

/-- State-passing evaluateBoard.  The evaluation cache of the C program is
a pair of globals outside GameState; it only memoizes previously computed
scores for identical positions and is not part of the shared Position, so
the lookup is modelled as a miss and the store as a no-op here. -/
def evaluateBoardS (s : GameState) : Int × GameState :=
  let r1 := evalPieceLoop allSquares (0, 0, 0) s
  let score1 := r1.1.1 + centerBonus r1.2
  let score2 := score1 + (r1.1.2.1 - r1.1.2.2) * 2
  let score3 := score2 + evaluatePawnStructure r1.2
  let r2 := evaluateKingSafetyS r1.2
  let score4 := score3 + r2.1
  let r3 := isInCheckS r2.2 true
  let score5 := if r3.1 then score4 - 200 else score4
  let r4 := isInCheckS r3.2 false
  let score6 := if r4.1 then score5 + 200 else score5
  (score6 + evaluateScholarsMateDefense r4.2, r4.2)

/-- State-passing scoreMoveForOrdering: capture and square bonuses are
reads, the check and Scholar's-Mate-counter bonuses are evaluated on the
temporarily mutated board, and the escape bonus queries isPieceUnderAttack
after the restore. -/
def scoreMoveForOrderingS (s : GameState) (fromRow fromCol toRow toCol : Int) :
    Int × GameState :=
  let movingPiece := s.board fromRow fromCol
  let capturedPiece := s.board toRow toCol
  let score1 : Int :=
    if capturedPiece ≠ EMPTY then
      mvvValue capturedPiece.toUpper - mvvValue movingPiece.toUpper / 10
    else 0
  let score2 := score1 + (if movingPiece = 'n' ∧ toRow = 3 ∧ toCol = 7 then 5000 else 0)
  let score3 := score2 + (if movingPiece = 'n' ∧ toRow = 2 ∧ toCol = 5 then 1000 else 0)
  let tempPiece := s.board toRow toCol
  let st1 := { s with
    board := setB (setB s.board toRow toCol (s.board fromRow fromCol)) fromRow fromCol EMPTY }
  let r1 := isInCheckS st1 (!st1.isWhiteTurn)
  let score4 := if r1.1 then score3 + 50 else score3
  let score5 := if ¬ r1.2.isWhiteTurn ∧ isScholarsMateThreat r1.2 then score4 + 2000 else score4
  let st3 := { r1.2 with
    board := setB (setB r1.2.board fromRow fromCol (r1.2.board toRow toCol)) toRow toCol
      tempPiece }
  let score6 := if (3 ≤ toRow ∧ toRow ≤ 4) ∧ (3 ≤ toCol ∧ toCol ≤ 4) then score5 + 10
    else score5
  let r2 := isPieceUnderAttackS st3 fromRow fromCol
  (if r2.1 then score6 + 20 else score6, r2.2)

/-- The inner destination loop of generateAllMoves: every accepted move is
appended (up to the 256 cap) together with its ordering score. -/
def genInner (fromRow fromCol : Int) :
    List (Int × Int) → List ((Int × Int × Int × Int) × Int) → GameState →
    List ((Int × Int × Int × Int) × Int) × GameState
  | [], acc, st => (acc, st)
  | t :: rest, acc, st =>
    let r1 := isValidMoveS st fromRow fromCol t.1 t.2
    if r1.1 then
      if acc.length < 256 then
        let r2 := scoreMoveForOrderingS r1.2 fromRow fromCol t.1 t.2
        genInner fromRow fromCol rest (acc ++ [((fromRow, fromCol, t.1, t.2), r2.1)]) r2.2
      else genInner fromRow fromCol rest acc r1.2
    else genInner fromRow fromCol rest acc r1.2

/-- The outer origin loop of generateAllMoves: only pieces of the side to
move are expanded. -/
def genOuter : List (Int × Int) → List ((Int × Int × Int × Int) × Int) → GameState →
    List ((Int × Int × Int × Int) × Int) × GameState
  | [], acc, st => (acc, st)
  | f :: rest, acc, st =>
    let piece := st.board f.1 f.2
    if (st.isWhiteTurn ∧ piece.isUpper) ∨ (¬ st.isWhiteTurn ∧ piece.isLower) then
      let r := genInner f.1 f.2 allSquares acc st
      genOuter rest r.1 r.2
    else genOuter rest acc st

/-- State-passing generateAllMoves, returning the scored move list. -/
def generateAllMovesS (s : GameState) : List ((Int × Int × Int × Int) × Int) × GameState :=
  genOuter allSquares [] s

/-- The inner j loop of minimax's swap sort. -/
def sortLoopJ (i : Nat) : Nat → Nat → List ((Int × Int × Int × Int) × Int) →
    List ((Int × Int × Int × Int) × Int)
  | _, 0, l => l
  | j, fuel + 1, l =>
    if j < l.length then
      let li := l.getD i (((0, 0, 0, 0), 0))
      let lj := l.getD j (((0, 0, 0, 0), 0))
      let l1 := if lj.2 > li.2 then (l.set i lj).set j li else l
      sortLoopJ i (j + 1) fuel l1
    else l

/-- The outer i loop of minimax's swap sort. -/
def sortLoopI : Nat → Nat → List ((Int × Int × Int × Int) × Int) →
    List ((Int × Int × Int × Int) × Int)
  | _, 0, l => l
  | i, fuel + 1, l =>
    if i + 1 < l.length then sortLoopI (i + 1) fuel (sortLoopJ i (i + 1) l.length l)
    else l

/-- minimax's in-place move ordering: repeated swaps bringing higher scores
forward. -/
def sortMoves (l : List ((Int × Int × Int × Int) × Int)) :
    List ((Int × Int × Int × Int) × Int) :=
  sortLoopI 0 l.length l

/-- The capture loop of quiescence over destination squares for one origin:
accepted captures are played on the board, searched, and undone; a beta
(alpha) cut returns early, otherwise the window is tightened. -/
def qInner (recur : GameState → Int → Int → Bool → Option (Int × GameState))
    (isMaximizingPlayer : Bool) (fromRow fromCol : Int) :
    List (Int × Int) → Int → Int → GameState → Option ((Int ⊕ (Int × Int)) × GameState)
  | [], alpha, beta, st => some (Sum.inr (alpha, beta), st)
  | t :: rest, alpha, beta, st =>
    if st.board t.1 t.2 ≠ EMPTY ∧
        ((isMaximizingPlayer ∧ (st.board t.1 t.2).isLower) ∨
         (¬ isMaximizingPlayer ∧ (st.board t.1 t.2).isUpper)) then
      let r1 := isValidMoveS st fromRow fromCol t.1 t.2
      if r1.1 then
        let st1 := r1.2
        let tempPiece := st1.board t.1 t.2
        let st2 := { st1 with
          board := setB (setB st1.board t.1 t.2 (st1.board fromRow fromCol)) fromRow fromCol
            EMPTY }
        match recur st2 alpha beta (!isMaximizingPlayer) with
        | none => none
        | some (score, st3) =>
          let st4 := { st3 with
            board := setB (setB st3.board fromRow fromCol (st3.board t.1 t.2)) t.1 t.2
              tempPiece }
          if isMaximizingPlayer then
            if score ≥ beta then some (Sum.inl beta, st4)
            else qInner recur isMaximizingPlayer fromRow fromCol rest
              (if score > alpha then score else alpha) beta st4
          else
            if score ≤ alpha then some (Sum.inl alpha, st4)
            else qInner recur isMaximizingPlayer fromRow fromCol rest alpha
              (if score < beta then score else beta) st4
      else qInner recur isMaximizingPlayer fromRow fromCol rest alpha beta r1.2
    else qInner recur isMaximizingPlayer fromRow fromCol rest alpha beta st

/-- The origin loop of quiescence: own pieces only; an early cut from the
inner loop returns immediately. -/
def qOuter (recur : GameState → Int → Int → Bool → Option (Int × GameState))
    (isMaximizingPlayer : Bool) :
    List (Int × Int) → Int → Int → GameState → Option ((Int ⊕ (Int × Int)) × GameState)
  | [], alpha, beta, st => some (Sum.inr (alpha, beta), st)
  | f :: rest, alpha, beta, st =>
    if (isMaximizingPlayer ∧ (st.board f.1 f.2).isUpper) ∨
        (¬ isMaximizingPlayer ∧ (st.board f.1 f.2).isLower) then
      match qInner recur isMaximizingPlayer f.1 f.2 allSquares alpha beta st with
      | none => none
      | some (Sum.inl v, st1) => some (Sum.inl v, st1)
      | some (Sum.inr (a, b), st1) => qOuter recur isMaximizingPlayer rest a b st1
    else qOuter recur isMaximizingPlayer rest alpha beta st

/-- State-passing quiescence with explicit fuel (the C function carries no
depth counter; fuel only bounds the recursion and is returned as none when
exhausted, which a piece-count bound rules out below). -/
def quiescenceS : Nat → GameState → Int → Int → Bool → Option (Int × GameState)
  | 0, _, _, _, _ => none
  | fuel + 1, s, alpha, beta, isMaximizingPlayer =>
    let r0 := evaluateBoardS s
    let standPat := r0.1
    let s0 := r0.2
    if isMaximizingPlayer ∧ standPat ≥ beta then some (beta, s0)
    else if ¬ isMaximizingPlayer ∧ standPat ≤ alpha then some (alpha, s0)
    else
      let alpha1 := if isMaximizingPlayer ∧ alpha < standPat then standPat else alpha
      let beta1 := if ¬ isMaximizingPlayer ∧ beta > standPat then standPat else beta
      match qOuter (fun s2 a b m => quiescenceS fuel s2 a b m) isMaximizingPlayer
          allSquares alpha1 beta1 s0 with
      | none => none
      | some (Sum.inl v, s1) => some (v, s1)
      | some (Sum.inr (a, b), s1) => some ((if isMaximizingPlayer then a else b), s1)

/-- The move loop of minimax: each move is played on the board, searched
one level deeper, and undone; the best score and window are updated and a
beta cut breaks out of the loop. -/
def mmLoop (recur : GameState → Int → Int → Bool → Option (Int × GameState))
    (isMaximizingPlayer : Bool) :
    List ((Int × Int × Int × Int) × Int) → Int → Int → Int → GameState →
    Option (Int × GameState)
  | [], bestScore, _, _, st => some (bestScore, st)
  | m :: rest, bestScore, alpha, beta, st =>
    let fromRow := m.1.1
    let fromCol := m.1.2.1
    let toRow := m.1.2.2.1
    let toCol := m.1.2.2.2
    let tempPiece := st.board toRow toCol
    let st1 := { st with
      board := setB (setB st.board toRow toCol (st.board fromRow fromCol)) fromRow fromCol
        EMPTY }
    match recur st1 alpha beta (!isMaximizingPlayer) with
    | none => none
    | some (score, st2) =>
      let st3 := { st2 with
        board := setB (setB st2.board fromRow fromCol (st2.board toRow toCol)) toRow toCol
          tempPiece }
      let best1 := if isMaximizingPlayer then (if score > bestScore then score else bestScore)
        else (if score < bestScore then score else bestScore)
      let alpha1 := if isMaximizingPlayer then (if alpha > best1 then alpha else best1)
        else alpha
      let beta1 := if isMaximizingPlayer then beta else (if beta < best1 then beta else best1)
      if beta1 ≤ alpha1 then some (best1, st3)
      else mmLoop recur isMaximizingPlayer rest best1 alpha1 beta1 st3

/-- State-passing minimax with explicit recursion fuel (first parameter)
and a fuel for the quiescence search run at depth 0. -/
def minimaxS : Nat → Nat → GameState → Int → Int → Int → Bool → Option (Int × GameState)
  | 0, _, _, _, _, _, _ => none
  | fuel + 1, qfuel, s, depth, alpha, beta, isMaximizingPlayer =>
    if depth = 0 then quiescenceS qfuel s alpha beta isMaximizingPlayer
    else
      let r1 := generateAllMovesS s
      if r1.1.length = 0 then
        let r2 := isInCheckS r1.2 isMaximizingPlayer
        some ((if r2.1 then -100000 else 0), r2.2)
      else
        mmLoop (fun s2 a b m => minimaxS fuel qfuel s2 (depth - 1) a b m)
          isMaximizingPlayer (sortMoves r1.1)
          (if isMaximizingPlayer then -100000 else 100000) alpha beta r1.2

/-- Number of occupied squares on the board (the quantity each quiescence
capture strictly decreases). -/
def pieceCount (s : GameState) : Nat :=
  allSquares.countP fun p => s.board p.1 p.2 ≠ EMPTY

/-- The board doesMovePutKingInCheck simulates for the white kingside castle
king move (7,4) -> (7,6): the king written to (7,6), the origin cleared. -/
def simB (s : GameState) : Int → Int → Char :=
  setB (setB s.board 7 6 'K') 7 4 EMPTY

/-- Position for the kingside-castling witness: white king (7,4) and rook
(7,7) with all rights intact, black king (0,4); white to move. -/
def castleWitState : GameState :=
  mkState [(7, 4, 'K'), (7, 7, 'R'), (0, 4, 'k')] true

section Theorems

set_option maxRecDepth 100000

/-- Projection of an if-then-else GameState to its enPassantTargetRow. -/
theorem epRow_ite (c : Prop) [Decidable c] (a b : GameState) :
    (if c then a else b).enPassantTargetRow =
    if c then a.enPassantTargetRow else b.enPassantTargetRow := by
  split <;> rfl

/-- Projection of an if-then-else GameState to its enPassantTargetCol. -/
theorem epCol_ite (c : Prop) [Decidable c] (a b : GameState) :
    (if c then a else b).enPassantTargetCol =
    if c then a.enPassantTargetCol else b.enPassantTargetCol := by
  split <;> rfl

/-- Projection of an if-then-else GameState to its board. -/
theorem board_ite (c : Prop) [Decidable c] (a b : GameState) :
    (if c then a else b).board = if c then a.board else b.board := by
  split <;> rfl

/-- updateCastlingRights leaves the board unchanged. -/
theorem updateCastlingRights_board (s : GameState) (fr fc tr tc : Int) :
    (updateCastlingRights s fr fc tr tc).board = s.board := rfl

/-- Helper: the en-passant branch of the pawn validator accepts the
white-pawn capture from (3,4) onto the armed target (2,3). -/
theorem epPawnMove_accepted (s : GameState)
    (hep : s.enPassantTargetRow = 2) (hec : s.enPassantTargetCol = 3)
    (hp : s.board 3 4 = 'P') (he : s.board 2 3 = EMPTY) :
    isValidPawnMove s 3 4 2 3 = true := by
  have hU : ('P').isUpper = true := rfl
  simp only [isValidPawnMove, hp, he, hep, hec, EMPTY, hU]
  norm_num [inB]

/-- Claim C8: isDraw returns true exactly when isStalemate is true, or
isInsufficientMaterial is true, or the halfmove clock is at least 100; the
threefold-repetition disjunct never contributes because
isThreefoldRepetition returns false on every position. -/
theorem isDraw_eq_stalemate_or_insufficient_or_fifty (s : GameState) :
    isDraw s = (isStalemate s || isInsufficientMaterial s || decide (s.halfmoveClock ≥ 100)) ∧
    isThreefoldRepetition s = false := by
  constructor
  · simp [isDraw, isFiftyMoveRule, isThreefoldRepetition]
  · rfl

/-- Claim C4 (failing-input evaluation): encoding the initial position and
decoding the result reproduces the board, side to move, castling rights,
en-passant target and halfmove clock, but turns the fullmove number 1 into
11 — the decoder starts its fullmove accumulator at 1 instead of 0 before
folding in the digits, so the round-trip law fails on every position. -/
theorem fen_roundtrip_breaks_fullmove :
    (fenToGameState (gameStateToFEN initialGameState)).fullmoveNumber = 11 ∧
    initialGameState.fullmoveNumber = 1 ∧
    (∀ r : Fin 8, ∀ c : Fin 8,
      (fenToGameState (gameStateToFEN initialGameState)).board ((r : Nat) : Int) ((c : Nat) : Int) =
      initialGameState.board ((r : Nat) : Int) ((c : Nat) : Int)) ∧
    (fenToGameState (gameStateToFEN initialGameState)).isWhiteTurn =
      initialGameState.isWhiteTurn ∧
    (fenToGameState (gameStateToFEN initialGameState)).canWhiteCastleKingside =
      initialGameState.canWhiteCastleKingside ∧
    (fenToGameState (gameStateToFEN initialGameState)).canWhiteCastleQueenside =
      initialGameState.canWhiteCastleQueenside ∧
    (fenToGameState (gameStateToFEN initialGameState)).canBlackCastleKingside =
      initialGameState.canBlackCastleKingside ∧
    (fenToGameState (gameStateToFEN initialGameState)).canBlackCastleQueenside =
      initialGameState.canBlackCastleQueenside ∧
    (fenToGameState (gameStateToFEN initialGameState)).enPassantTargetRow =
      initialGameState.enPassantTargetRow ∧
    (fenToGameState (gameStateToFEN initialGameState)).enPassantTargetCol =
      initialGameState.enPassantTargetCol ∧
    (fenToGameState (gameStateToFEN initialGameState)).halfmoveClock =
      initialGameState.halfmoveClock := by
  decide

/-- Claim C2 (failing-input evaluation): generateAllMoves on epExposedState
emits the en-passant capture (3,4) to (2,3), yet after makeMove applies it
the white king is attacked by the black rook along the now-open row 3 — the
self-check guard simulated the move without removing the en-passant-captured
pawn. -/
theorem generated_ep_capture_leaves_king_attacked :
    (generateAllMoves epExposedState).moves.contains (3, 4, 2, 3) = true ∧
    isInCheck (makeMove epExposedState 3 4 2 3 'Q') true = true := by
  constructor
  · decide
  · decide

/-- Claim C6: a black pawn double-step from (1,3) to (3,3) arms the
en-passant target (2,3); in any position with that target armed, a white
pawn on (3,4), the black pawn on (3,3), square (2,3) empty and white to
move, the capture (3,4) to (2,3) is accepted as legal (assuming the move
triggers neither the generic pin-ray rejection nor the self-check guard,
which concern the rest of the position), and makeMove removes the black
pawn from (3,3) and places the white pawn on the empty square (2,3) — no
piece is captured from (2,3) itself. -/
theorem enPassant_scenario (s0 s : GameState)
    (h0 : s0.board 1 3 = 'p')
    (hep : s.enPassantTargetRow = 2) (hec : s.enPassantTargetCol = 3)
    (hp : s.board 3 4 = 'P') (_hq : s.board 3 3 = 'p') (he : s.board 2 3 = EMPTY)
    (ht : s.isWhiteTurn = true)
    (hpin : (getPinInfo s 3 4).isPinned = true →
            isMoveAlongPinRay 3 4 2 3 (getPinInfo s 3 4) = true)
    (hchk : doesMovePutKingInCheck s 3 4 2 3 = false) :
    ((makeMove s0 1 3 3 3 'Q').enPassantTargetRow = 2 ∧
     (makeMove s0 1 3 3 3 'Q').enPassantTargetCol = 3) ∧
    isValidMove s 3 4 2 3 = true ∧
    (makeMove s 3 4 2 3 'Q').board 3 3 = EMPTY ∧
    (makeMove s 3 4 2 3 'Q').board 2 3 = 'P' ∧
    (makeMove s 3 4 2 3 'Q').board 3 4 = EMPTY := by
  refine ⟨?_, ?_, ?_⟩
  · simp only [makeMove, updateCastlingRights, promotePawnWith, h0, epRow_ite, epCol_ite]
    norm_num
    all_goals decide
  · have hpawn := epPawnMove_accepted s hep hec hp he
    have hd : pieceDispatch s 'P' 3 4 2 3 = isValidPawnMove s 3 4 2 3 := rfl
    simp only [isValidMove, hp, he, ht, hd, hpawn, hchk, EMPTY]
    norm_num
    by_cases hpi : (getPinInfo s 3 4).isPinned = true
    · simp [hpi, hpin hpi]
      decide
    · simp [hpi]
      decide
  · have hU : ('P').toUpper = 'P' := rfl
    simp only [makeMove, board_ite, updateCastlingRights_board, promotePawnWith, hp, he,
      hep, hec, EMPTY, hU]
    norm_num [setB]

/-- Witness for claim C6 at the concrete positions epBeforeState and
epWitnessState. -/
theorem enPassant_scenario_witness :
    epWitnessState.enPassantTargetRow = 2 ∧
    isValidMove epWitnessState 3 4 2 3 = true ∧
    (makeMove epWitnessState 3 4 2 3 'Q').board 3 3 = EMPTY ∧
    (makeMove epWitnessState 3 4 2 3 'Q').board 2 3 = 'P' := by
  have h := enPassant_scenario epBeforeState epWitnessState (by decide) (by decide)
    (by decide) (by decide) (by decide) (by decide) (by decide) (by decide) (by decide)
  exact ⟨by decide, h.2.1, h.2.2.1, h.2.2.2.1⟩

/-- Numeric value of the UInt32 literal 97. -/
theorem uv97 : (97 : UInt32).toNat = 97 := rfl

/-- Numeric value of the UInt32 literal 122. -/
theorem uv122 : (122 : UInt32).toNat = 122 := rfl

/-- Numeric value of the UInt32 literal 65. -/
theorem uv65 : (65 : UInt32).toNat = 65 := rfl

/-- Numeric value of the UInt32 literal 90. -/
theorem uv90 : (90 : UInt32).toNat = 90 := rfl

/-- Lowercase characters have code points between 97 and 122. -/
theorem isLower_toNat (p : Char) (h : p.isLower = true) : 97 ≤ p.toNat ∧ p.toNat ≤ 122 := by
  rw [Char.isLower] at h
  simp only [Bool.and_eq_true, decide_eq_true_eq] at h
  have h1 : (97 : UInt32).toNat ≤ p.val.toNat := h.1
  have h2 : p.val.toNat ≤ (122 : UInt32).toNat := h.2
  rw [uv97] at h1
  rw [uv122] at h2
  exact ⟨h1, h2⟩

/-- Uppercase characters have code points between 65 and 90. -/
theorem isUpper_toNat (p : Char) (h : p.isUpper = true) : 65 ≤ p.toNat ∧ p.toNat ≤ 90 := by
  rw [Char.isUpper] at h
  simp only [Bool.and_eq_true, decide_eq_true_eq] at h
  have h1 : (65 : UInt32).toNat ≤ p.val.toNat := h.1
  have h2 : p.val.toNat ≤ (90 : UInt32).toNat := h.2
  rw [uv65] at h1
  rw [uv90] at h2
  exact ⟨h1, h2⟩

/-- An uppercase character is not lowercase. -/
theorem isUpper_not_isLower (p : Char) (h : p.isUpper = true) : p.isLower = false := by
  have hb := isUpper_toNat p h
  rw [Char.isLower]
  simp only [Bool.and_eq_false_iff, decide_eq_false_iff_not]
  left
  intro hc
  have hb1 : (97 : UInt32).toNat ≤ p.toNat := hc
  rw [uv97] at hb1
  omega

/-- toUpper is the identity on characters that are not lowercase. -/
theorem toUpper_of_notLower (p : Char) (hl : p.isLower = false) : p.toUpper = p := by
  rw [Char.toUpper]
  rw [Char.isLower] at hl
  simp only [Bool.and_eq_false_iff, decide_eq_false_iff_not] at hl
  have h2 : ¬ (p.toNat ≥ 97 ∧ p.toNat ≤ 122) := by
    have hc : ((97 : UInt32) ≤ p.val) ↔ 97 ≤ p.toNat := Iff.rfl
    have hd : (p.val ≤ (122 : UInt32)) ↔ p.toNat ≤ 122 := Iff.rfl
    rintro ⟨ha, hb⟩
    rcases hl with h | h
    · exact h (hc.mpr ha)
    · exact h (hd.mpr hb)
  rw [if_neg h2]

/-- An uppercase character whose toUpper is the white king letter is it. -/
theorem upper_toUpper_K (p : Char) (hu : p.isUpper = true) (hk : p.toUpper = 'K') : p = 'K' := by
  rw [toUpper_of_notLower p (isUpper_not_isLower p hu)] at hk
  exact hk

/-- A lowercase character whose toUpper is the white king letter is the
black king letter. -/
theorem lower_toUpper_K (p : Char) (hl : p.isLower = true) (hk : p.toUpper = 'K') : p = 'k' := by
  obtain ⟨h1, h2⟩ := isLower_toNat p hl
  rw [Char.toUpper] at hk
  rw [if_pos ⟨h1, h2⟩] at hk
  have hv : (p.toNat - 32).isValidChar := Or.inl (by omega)
  have ht : (Char.ofNat (p.toNat - 32)).toNat = p.toNat - 32 := by
    rw [Char.ofNat, dif_pos hv]
    rfl
  have h75 : p.toNat - 32 = 75 := by
    rw [hk] at ht
    have hKv : ('K').toNat = 75 := rfl
    omega
  have h107 : p.toNat = 107 := by omega
  have hofn := Char.ofNat_toNat p
  rw [h107] at hofn
  rw [← hofn]

/-- Membership in the coordinate list means the 0..7 bounds. -/
theorem mem_coordList (x : Int) : x ∈ coordList ↔ 0 ≤ x ∧ x < 8 := by
  constructor
  · intro h
    fin_cases h <;> norm_num
  · intro h
    obtain ⟨h1, h2⟩ := h
    interval_cases x <;> decide

/-- Membership in the square list means the in-bounds predicate. -/
theorem mem_allSquares (r c : Int) : (r, c) ∈ allSquares ↔ inB r c := by
  rw [allSquares, List.mem_flatMap, inB]
  constructor
  · rintro ⟨i, hi, hmem⟩
    rw [List.mem_map] at hmem
    obtain ⟨j, hj, heq⟩ := hmem
    rw [mem_coordList] at hi
    rw [mem_coordList] at hj
    injection heq with h1 h2
    omega
  · intro h
    refine ⟨r, by rw [mem_coordList]; omega, ?_⟩
    rw [List.mem_map]
    exact ⟨c, by rw [mem_coordList]; omega, rfl⟩

/-- isValidMove rejects out-of-bounds coordinates. -/
theorem isValidMove_oob (s : GameState) (fr fc tr tc : Int)
    (h : ¬ (inB fr fc ∧ inB tr tc)) : isValidMove s fr fc tr tc = false := by
  simp [isValidMove, h]

/-- An accepted move has in-bounds coordinates. -/
theorem isValidMove_bounds (s : GameState) (fr fc tr tc : Int)
    (h : isValidMove s fr fc tr tc = true) : inB fr fc ∧ inB tr tc := by
  by_contra hb
  rw [isValidMove_oob s fr fc tr tc hb] at h
  exact Bool.false_ne_true h

/-- isValidMove rejects an empty source square. -/
theorem isValidMove_empty (s : GameState) (fr fc tr tc : Int)
    (h : s.board fr fc = EMPTY) : isValidMove s fr fc tr tc = false := by
  simp [isValidMove, h]

/-- isValidMove rejects a non-white source piece on white's turn. -/
theorem isValidMove_notUpper (s : GameState) (fr fc tr tc : Int)
    (hw : s.isWhiteTurn = true) (hu : (s.board fr fc).isUpper = false) :
    isValidMove s fr fc tr tc = false := by
  simp [isValidMove, hw, hu]

/-- isValidMove rejects a white source piece on black's turn. -/
theorem isValidMove_notLower (s : GameState) (fr fc tr tc : Int)
    (hw : s.isWhiteTurn = false) (hu : (s.board fr fc).isUpper = true) :
    isValidMove s fr fc tr tc = false := by
  simp [isValidMove, hw, hu]

/-- isValidMove rejects a move whose piece-pattern dispatch fails. -/
theorem isValidMove_noDispatch (s : GameState) (fr fc tr tc : Int)
    (hd : pieceDispatch s (s.board fr fc) fr fc tr tc = false) :
    isValidMove s fr fc tr tc = false := by
  simp [isValidMove, hd]

/-- isValidMove rejects a move failing the self-check guard. -/
theorem isValidMove_inCheckAfter (s : GameState) (fr fc tr tc : Int)
    (hc : doesMovePutKingInCheck s fr fc tr tc = true) :
    isValidMove s fr fc tr tc = false := by
  simp [isValidMove, hc]

/-- An accepted move passes its piece-pattern dispatch. -/
theorem isValidMove_dispatch (s : GameState) (fr fc tr tc : Int)
    (h : isValidMove s fr fc tr tc = true) :
    pieceDispatch s (s.board fr fc) fr fc tr tc = true := by
  by_contra hd
  rw [Bool.not_eq_true] at hd
  rw [isValidMove_noDispatch s fr fc tr tc hd] at h
  exact Bool.false_ne_true h

/-- An accepted move on white's turn moves a white piece. -/
theorem isValidMove_white (s : GameState) (fr fc tr tc : Int)
    (hw : s.isWhiteTurn = true) (h : isValidMove s fr fc tr tc = true) :
    (s.board fr fc).isUpper = true := by
  by_contra hu
  rw [Bool.not_eq_true] at hu
  rw [isValidMove_notUpper s fr fc tr tc hw hu] at h
  exact Bool.false_ne_true h

/-- An accepted move on black's turn moves a black piece (a non-white piece
on a non-empty source; lowercase follows for letters via the piece
dispatch). -/
theorem isValidMove_black (s : GameState) (fr fc tr tc : Int)
    (hw : s.isWhiteTurn = false) (h : isValidMove s fr fc tr tc = true) :
    (s.board fr fc).isUpper = false := by
  by_contra hu
  rw [Bool.not_eq_false] at hu
  rw [isValidMove_notLower s fr fc tr tc hw hu] at h
  exact Bool.false_ne_true h

/-- A character that is neither uppercase nor lowercase is not a piece
letter the dispatch knows. -/
theorem notKnown_of_neither (p : Char) (hu : p.isUpper = false) (hl : p.isLower = false) :
    ¬ knownPiece p := by
  intro hk
  rw [knownPiece, toUpper_of_notLower p hl] at hk
  rcases hk with h | h | h | h | h | h <;> (subst h; exact absurd hu (by decide))

/-- isValidMove never accepts a move to its own source square. -/
theorem isValidMove_sameSquare (s : GameState) (fr fc : Int) :
    isValidMove s fr fc fr fc = false := by
  by_cases he : s.board fr fc = EMPTY
  · exact isValidMove_empty s fr fc fr fc he
  rcases hw : s.isWhiteTurn with _ | _
  · by_cases hl : (s.board fr fc).isLower = true
    · simp [isValidMove, hw, hl]
    · by_cases hu : (s.board fr fc).isUpper = true
      · exact isValidMove_notLower s fr fc fr fc hw hu
      · have hnk := notKnown_of_neither (s.board fr fc)
          (Bool.not_eq_true _ |>.mp hu) (Bool.not_eq_true _ |>.mp hl)
        simp [isValidMove, hnk]
  · by_cases hu : (s.board fr fc).isUpper = true
    · simp [isValidMove, hw, hu]
    · exact isValidMove_notUpper s fr fc fr fc hw (Bool.not_eq_true _ |>.mp hu)

/-- A list with exactly one match finds any matching member first. -/
theorem find_eq_of_countP_one {α : Type} (l : List α) (q : α → Bool) (x : α)
    (h1 : l.countP q = 1) (h2 : x ∈ l) (h3 : q x = true) : l.find? q = some x := by
  induction l with
  | nil => cases h2
  | cons a t ih =>
    rw [List.countP_cons] at h1
    cases ha : q a
    · simp only [List.find?_cons, ha]
      rw [ha] at h1
      simp at h1
      rcases List.mem_cons.mp h2 with hx | hx
      · rw [hx, ha] at h3
        exact absurd h3 (by decide)
      · exact ih h1 hx
    · simp only [List.find?_cons, ha]
      rw [ha] at h1
      simp at h1
      have hx : x = a := by
        rcases List.mem_cons.mp h2 with hx | hx
        · exact hx
        · exact absurd h3 (by
            have hz := h1 x hx
            rw [hz]
            exact Bool.false_ne_true)
      rw [hx]

/-- With exactly one king square on the board, findKing locates it. -/
theorem findKing_unique (b : Int → Int → Char) (k : Char) (r c : Int)
    (hcount : (allSquares.countP fun p => b p.1 p.2 = k) = 1)
    (hat : b r c = k) (hin : inB r c) : findKing b k = some (r, c) := by
  rw [findKing]
  exact find_eq_of_countP_one allSquares _ (r, c) hcount
    ((mem_allSquares r c).mpr hin) (by simp [hat])

/-- A king in check cannot castle. -/
theorem isValidCastling_inCheck (s : GameState) (fr fc tr tc : Int)
    (h : isInCheck s ((s.board fr fc).isUpper) = true) :
    isValidCastling s fr fc tr tc = false := by
  simp [isValidCastling, h]

/-- The piece dispatch for a king letter is the king validator. -/
theorem pieceDispatch_king (s : GameState) (piece : Char) (fr fc tr tc : Int)
    (h : piece.toUpper = 'K') :
    pieceDispatch s piece fr fc tr tc = isValidKingMove s fr fc tr tc := by
  simp [pieceDispatch, h]

/-- A valid king move that cannot be a castle is a one-step move. -/
theorem kingMove_adjacent (s : GameState) (fr fc tr tc : Int)
    (hk : isValidKingMove s fr fc tr tc = true)
    (hc : isValidCastling s fr fc tr tc = false) :
    (tr - fr).natAbs ≤ 1 ∧ (tc - fc).natAbs ≤ 1 := by
  rw [isValidKingMove] at hk
  split_ifs at hk with h1 h2
  · exact h1
  · exact absurd hk (by rw [hc]; exact Bool.false_ne_true)

/-- A valid one-step king move from the king square makes the escape scan
of isCheckmate succeed. -/
theorem kingEscapeExists_of_valid (s : GameState) (kr kc tr tc : Int)
    (h : isValidMove s kr kc tr tc = true)
    (hadj : (tr - kr).natAbs ≤ 1 ∧ (tc - kc).natAbs ≤ 1)
    (hne : ¬ (kr = tr ∧ kc = tc)) :
    kingEscapeExists s kr kc = true := by
  have hb := (isValidMove_bounds s kr kc tr tc h).2
  rw [kingEscapeExists, List.any_eq_true]
  refine ⟨tr - kr, by simp [List.mem_cons]; omega, ?_⟩
  rw [List.any_eq_true]
  refine ⟨tc - kc, by simp [List.mem_cons]; omega, ?_⟩
  have e1 : kr + (tr - kr) = tr := by ring
  have e2 : kc + (tc - kc) = tc := by ring
  have hcond : ¬ (tr - kr = 0 ∧ tc - kc = 0) := by
    intro hz
    exact hne ⟨by omega, by omega⟩
  rw [if_neg hcond, e1, e2, if_pos hb]
  exact h

/-- isValidMove rejects a source character outside the six piece letters. -/
theorem isValidMove_noKnown (s : GameState) (fr fc tr tc : Int)
    (h : ¬ knownPiece (s.board fr fc)) : isValidMove s fr fc tr tc = false := by
  simp [isValidMove, h]

/-- An accepted move starts from one of the six piece letters. -/
theorem isValidMove_known (s : GameState) (fr fc tr tc : Int)
    (h : isValidMove s fr fc tr tc = true) : knownPiece (s.board fr fc) := by
  by_contra hn
  rw [isValidMove_noKnown s fr fc tr tc hn] at h
  exact Bool.false_ne_true h

/-- A known piece letter that is not uppercase is lowercase. -/
theorem lower_of_known_notUpper (p : Char) (hk : knownPiece p) (hu : p.isUpper = false) :
    p.isLower = true := by
  by_contra hl
  rw [Bool.not_eq_true] at hl
  exact notKnown_of_neither p hu hl hk

/-- Claim C3: isCheckmate returns true exactly when the side to move is in
check and no from/to coordinate pair is accepted by isValidMove, and
isStalemate returns true exactly when the side to move is not in check and
no such pair is accepted, provided the side to move has exactly one king on
the board (the data model guarantees one king per colour; with duplicate
kings the checkmate scan, which only tries the first-found king and skips
other kings, can miss moves). -/
theorem checkmate_stalemate_characterization (s : GameState)
    (hk : (allSquares.countP fun p =>
      s.board p.1 p.2 = (if s.isWhiteTurn then 'K' else 'k')) = 1) :
    (isCheckmate s = true ↔ (isInCheck s s.isWhiteTurn = true ∧
      ∀ fr fc tr tc : Int, isValidMove s fr fc tr tc = false)) ∧
    (isStalemate s = true ↔ (isInCheck s s.isWhiteTurn = false ∧
      ∀ fr fc tr tc : Int, isValidMove s fr fc tr tc = false)) := by
  constructor
  · constructor
    · intro hcm
      have hin : isInCheck s s.isWhiteTurn = true := by
        by_contra hni
        rw [Bool.not_eq_true] at hni
        rw [isCheckmate, if_pos (by rw [hni]; exact Bool.false_ne_true)] at hcm
        exact Bool.false_ne_true hcm
      refine ⟨hin, ?_⟩
      intro fr fc tr tc
      by_contra hv
      rw [Bool.not_eq_false] at hv
      obtain ⟨hb1, hb2⟩ := isValidMove_bounds s fr fc tr tc hv
      by_cases hkg : (s.board fr fc).toUpper = 'K'
      · -- the moving piece is the side-to-move king
        have hpk : s.board fr fc = (if s.isWhiteTurn then 'K' else 'k') := by
          rcases hw : s.isWhiteTurn with _ | _
          · have hup := isValidMove_black s fr fc tr tc hw hv
            have hlo := lower_of_known_notUpper _ (isValidMove_known s fr fc tr tc hv) hup
            rw [if_neg (by decide)]
            exact lower_toUpper_K _ hlo hkg
          · have hup := isValidMove_white s fr fc tr tc hw hv
            rw [if_pos rfl]
            exact upper_toUpper_K _ hup hkg
        have hfind : findKing s.board (if s.isWhiteTurn then 'K' else 'k') = some (fr, fc) :=
          findKing_unique s.board _ fr fc hk hpk hb1
        have hcast : isValidCastling s fr fc tr tc = false := by
          apply isValidCastling_inCheck
          rcases hw : s.isWhiteTurn with _ | _
          · have hup := isValidMove_black s fr fc tr tc hw hv
            rw [hw] at hin
            rw [hup]
            exact hin
          · have hup := isValidMove_white s fr fc tr tc hw hv
            rw [hw] at hin
            rw [hup]
            exact hin
        have hkm : isValidKingMove s fr fc tr tc = true := by
          have hd := isValidMove_dispatch s fr fc tr tc hv
          rw [pieceDispatch_king s _ fr fc tr tc hkg] at hd
          exact hd
        have hadj := kingMove_adjacent s fr fc tr tc hkm hcast
        have hne : ¬ (fr = tr ∧ fc = tc) := by
          rintro ⟨h1, h2⟩
          subst h1; subst h2
          rw [isValidMove_sameSquare s fr fc] at hv
          exact Bool.false_ne_true hv
        have hesc := kingEscapeExists_of_valid s fr fc tr tc hv hadj hne
        rw [isCheckmate, if_neg (by rw [hin]; simp), kingEscapeScan, hfind] at hcm
        simp only [hesc] at hcm
        exact Bool.false_ne_true (by simpa using hcm)
      · -- a non-king piece moves
        have hown : (s.isWhiteTurn ∧ (s.board fr fc).isUpper) ∨
            (¬ s.isWhiteTurn ∧ (s.board fr fc).isLower) := by
          rcases hw : s.isWhiteTurn with _ | _
          · exact Or.inr ⟨by decide,
              lower_of_known_notUpper _ (isValidMove_known s fr fc tr tc hv)
                (isValidMove_black s fr fc tr tc hw hv)⟩
          · exact Or.inl ⟨rfl, isValidMove_white s fr fc tr tc hw hv⟩
        have hother : otherPieceMoveExists s = true := by
          rw [otherPieceMoveExists, List.any_eq_true]
          refine ⟨(fr, fc), (mem_allSquares fr fc).mpr hb1, ?_⟩
          rw [if_pos hown, if_neg hkg, List.any_eq_true]
          exact ⟨(tr, tc), (mem_allSquares tr tc).mpr hb2, hv⟩
        rw [isCheckmate, if_neg (by rw [hin]; simp)] at hcm
        rcases hscan : kingEscapeScan s with _ | _
        · rw [hscan] at hcm
          simp only [if_neg (Bool.false_ne_true)] at hcm
          rw [hother] at hcm
          exact absurd hcm (by decide)
        · rw [hscan] at hcm
          simp at hcm
    · rintro ⟨hin, hno⟩
      have hscan : kingEscapeScan s = false := by
        rw [kingEscapeScan]
        rcases hfk : findKing s.board (if s.isWhiteTurn then 'K' else 'k') with _ | kp
        · rfl
        · simp [kingEscapeExists, hno]
      have hother : otherPieceMoveExists s = false := by
        simp [otherPieceMoveExists, hno]
      rw [isCheckmate, if_neg (by rw [hin]; simp), hscan]
      simp [hother]
  · constructor
    · intro hst
      have hni : isInCheck s s.isWhiteTurn = false := by
        by_contra hni
        rw [Bool.not_eq_false] at hni
        rw [isStalemate, if_pos hni] at hst
        exact Bool.false_ne_true hst
      refine ⟨hni, ?_⟩
      intro fr fc tr tc
      by_contra hv
      rw [Bool.not_eq_false] at hv
      obtain ⟨hb1, hb2⟩ := isValidMove_bounds s fr fc tr tc hv
      have hown : (s.isWhiteTurn ∧ (s.board fr fc).isUpper) ∨
          (¬ s.isWhiteTurn ∧ (s.board fr fc).isLower) := by
        rcases hw : s.isWhiteTurn with _ | _
        · exact Or.inr ⟨by decide,
            lower_of_known_notUpper _ (isValidMove_known s fr fc tr tc hv)
              (isValidMove_black s fr fc tr tc hw hv)⟩
        · exact Or.inl ⟨rfl, isValidMove_white s fr fc tr tc hw hv⟩
      have hany : anyOwnMoveExists s = true := by
        rw [anyOwnMoveExists, List.any_eq_true]
        refine ⟨(fr, fc), (mem_allSquares fr fc).mpr hb1, ?_⟩
        rw [if_pos hown, List.any_eq_true]
        exact ⟨(tr, tc), (mem_allSquares tr tc).mpr hb2, hv⟩
      rw [isStalemate, if_neg (by rw [hni]; exact Bool.false_ne_true), hany] at hst
      exact absurd hst (by decide)
    · rintro ⟨hni, hno⟩
      have hany : anyOwnMoveExists s = false := by
        simp [anyOwnMoveExists, hno]
      rw [isStalemate, if_neg (by rw [hni]; exact Bool.false_ne_true), hany]
      rfl

/-- Witness for claim C3 at the concrete mate position mateState. -/
theorem checkmate_characterization_witness :
    (allSquares.countP fun p =>
      mateState.board p.1 p.2 = (if mateState.isWhiteTurn then 'K' else 'k')) = 1 ∧
    ((isCheckmate mateState = true ↔ (isInCheck mateState mateState.isWhiteTurn = true ∧
      ∀ fr fc tr tc : Int, isValidMove mateState fr fc tr tc = false)) ∧
    (isStalemate mateState = true ↔ (isInCheck mateState mateState.isWhiteTurn = false ∧
      ∀ fr fc tr tc : Int, isValidMove mateState fr fc tr tc = false))) :=
  ⟨by decide, checkmate_stalemate_characterization mateState (by decide)⟩


/-- At most one scan step can be the first occupied hit. -/
theorem pinHit_unique (s : GameState) (w : Bool) (sr sc r0 c0 : Int) (k k' : Nat)
    (h1 : pinHit s w sr sc r0 c0 k) (h2 : pinClearBefore s sr sc r0 c0 k)
    (h3 : pinHit s w sr sc r0 c0 k') (h4 : pinClearBefore s sr sc r0 c0 k') : k = k' := by
  rcases lt_trichotomy k k' with h | h | h
  · exact absurd (h4 k h).2 h1.2.1
  · exact h
  · exact absurd (h2 k' h).2 h3.2.1

/-- The getPinInfo scan loop either returns the unique first occupied
matching square within its fuel or reports no pin. -/
theorem pinScan_characterization (s : GameState) (w : Bool) (sr sc : Int) :
    ∀ (fuel : Nat) (r0 c0 : Int),
    (∃ k : Nat, k < fuel ∧ pinHit s w sr sc r0 c0 k ∧ pinClearBefore s sr sc r0 c0 k ∧
      pinScan s w sr sc fuel r0 c0 = ⟨true, sr, sc, r0 + k * sr, c0 + k * sc⟩) ∨
    (pinScan s w sr sc fuel r0 c0 = noPin ∧
      ¬ ∃ k : Nat, k < fuel ∧ pinHit s w sr sc r0 c0 k ∧ pinClearBefore s sr sc r0 c0 k) := by
  intro fuel
  induction fuel with
  | zero =>
    intro r0 c0
    right
    exact ⟨rfl, by rintro ⟨k, hk, _⟩; omega⟩
  | succ fuel ih =>
    intro r0 c0
    rw [pinScan]
    by_cases hin : inB r0 c0
    · rw [if_neg (by simpa using hin)]
      by_cases hocc : s.board r0 c0 = EMPTY
      · rw [if_neg (by simpa using hocc)]
        rcases ih (r0 + sr) (c0 + sc) with ⟨k, hk, hhit, hclear, heq⟩ | ⟨heq, hnone⟩
        · left
          refine ⟨k + 1, by omega, ?_, ?_, ?_⟩
          · unfold pinHit at hhit ⊢
            have e1 : r0 + sr + (k : Int) * sr = r0 + ((k : Nat) + 1 : Nat) * sr := by
              push_cast; ring
            have e2 : c0 + sc + (k : Int) * sc = c0 + ((k : Nat) + 1 : Nat) * sc := by
              push_cast; ring
            rw [e1, e2] at hhit
            exact hhit
          · intro j hj
            cases j with
            | zero => simpa using ⟨hin, hocc⟩
            | succ j =>
              have hj2 : j < k := by omega
              have hc := hclear j hj2
              have e1 : r0 + sr + (j : Int) * sr = r0 + ((j : Nat) + 1 : Nat) * sr := by
                push_cast; ring
              have e2 : c0 + sc + (j : Int) * sc = c0 + ((j : Nat) + 1 : Nat) * sc := by
                push_cast; ring
              rw [e1, e2] at hc
              exact hc
          · rw [heq]
            have e1 : r0 + sr + (k : Int) * sr = r0 + ((k : Nat) + 1 : Nat) * sr := by
              push_cast; ring
            have e2 : c0 + sc + (k : Int) * sc = c0 + ((k : Nat) + 1 : Nat) * sc := by
              push_cast; ring
            rw [e1, e2]
        · right
          refine ⟨heq, ?_⟩
          rintro ⟨k, hk, hhit, hclear⟩
          cases k with
          | zero =>
            unfold pinHit at hhit
            simp only [Nat.cast_zero, zero_mul, add_zero] at hhit
            exact hhit.2.1 hocc
          | succ k =>
            apply hnone
            refine ⟨k, by omega, ?_, ?_⟩
            · unfold pinHit at hhit ⊢
              have e1 : r0 + ((k : Nat) + 1 : Nat) * sr = r0 + sr + (k : Int) * sr := by
                push_cast; ring
              have e2 : c0 + ((k : Nat) + 1 : Nat) * sc = c0 + sc + (k : Int) * sc := by
                push_cast; ring
              rw [e1, e2] at hhit
              exact hhit
            · intro j hj
              have hc := hclear (j + 1) (by omega)
              have e1 : r0 + ((j : Nat) + 1 : Nat) * sr = r0 + sr + (j : Int) * sr := by
                push_cast; ring
              have e2 : c0 + ((j : Nat) + 1 : Nat) * sc = c0 + sc + (j : Int) * sc := by
                push_cast; ring
              rw [e1, e2] at hc
              exact hc
      · rw [if_pos (by simpa using hocc)]
        by_cases hene : (w ∧ (s.board r0 c0).isLower) ∨ (¬ w ∧ (s.board r0 c0).isUpper)
        · rw [if_pos hene]
          by_cases hcp : ((sr = 0 ∨ sc = 0) ∧
              ((s.board r0 c0).toUpper = 'R' ∨ (s.board r0 c0).toUpper = 'Q')) ∨
              (sr.natAbs = sc.natAbs ∧
              ((s.board r0 c0).toUpper = 'B' ∨ (s.board r0 c0).toUpper = 'Q'))
          · rw [if_pos hcp]
            left
            refine ⟨0, by omega, ?_, by intro j hj; omega, ?_⟩
            · unfold pinHit
              simp only [Nat.cast_zero, zero_mul, add_zero]
              exact ⟨hin, hocc, hene, hcp⟩
            · simp only [Nat.cast_zero, zero_mul, add_zero]
          · rw [if_neg hcp]
            right
            refine ⟨rfl, ?_⟩
            rintro ⟨k, hk, hhit, hclear⟩
            cases k with
            | zero =>
              unfold pinHit at hhit
              simp only [Nat.cast_zero, zero_mul, add_zero] at hhit
              exact hcp hhit.2.2.2
            | succ k =>
              have hc := hclear 0 (by omega)
              simp only [Nat.cast_zero, zero_mul, add_zero] at hc
              exact hocc hc.2
        · rw [if_neg hene]
          right
          refine ⟨rfl, ?_⟩
          rintro ⟨k, hk, hhit, hclear⟩
          cases k with
          | zero =>
            unfold pinHit at hhit
            simp only [Nat.cast_zero, zero_mul, add_zero] at hhit
            exact hene hhit.2.2.1
          | succ k =>
            have hc := hclear 0 (by omega)
            simp only [Nat.cast_zero, zero_mul, add_zero] at hc
            exact hocc hc.2
    · rw [if_pos (by simpa using hin)]
      right
      refine ⟨rfl, ?_⟩
      rintro ⟨k, hk, hhit, hclear⟩
      cases k with
      | zero =>
        unfold pinHit at hhit
        simp only [Nat.cast_zero, zero_mul, add_zero] at hhit
        exact hin hhit.1
      | succ k =>
        have hc := hclear 0 (by omega)
        simp only [Nat.cast_zero, zero_mul, add_zero] at hc
        exact hin hc.1

/-- Full characterization of getPinInfo: it reports a pin exactly for the
first occupied square walking from the first-found own king along the
piece-to-king direction extended past the king, when that square holds an
aligned enemy slider. -/
theorem getPinInfo_eq_iff (s : GameState) (row col dr dc qr qc : Int) :
    getPinInfo s row col = ⟨true, dr, dc, qr, qc⟩ ↔
    (s.board row col ≠ EMPTY ∧
     ∃ kr kc : Int,
       findKing s.board (if (s.board row col).isUpper then 'K' else 'k') = some (kr, kc) ∧
       (kr - row = 0 ∨ kc - col = 0 ∨ (kr - row).natAbs = (kc - col).natAbs) ∧
       dr = intSign (kr - row) ∧ dc = intSign (kc - col) ∧
       ∃ k : Nat, k < 16 ∧
         qr = kr + dr + k * dr ∧ qc = kc + dc + k * dc ∧
         pinHit s (s.board row col).isUpper dr dc (kr + dr) (kc + dc) k ∧
         pinClearBefore s dr dc (kr + dr) (kc + dc) k) := by
  constructor
  · intro h
    rw [getPinInfo] at h
    by_cases hemp : s.board row col = EMPTY
    · rw [if_pos hemp] at h
      exact absurd h (by simp [noPin])
    rw [if_neg hemp] at h
    rcases hfk : findKing s.board (if (s.board row col).isUpper then 'K' else 'k')
      with _ | kp
    · rw [hfk] at h
      simp only [Option.elim_none] at h
      exact absurd h (by simp [noPin])
    rw [hfk] at h
    simp only [Option.elim_some] at h
    by_cases hal : kp.1 - row = 0 ∨ kp.2 - col = 0 ∨
        (kp.1 - row).natAbs = (kp.2 - col).natAbs
    · rw [if_neg (not_not_intro hal)] at h
      rcases pinScan_characterization s (s.board row col).isUpper
          (intSign (kp.1 - row)) (intSign (kp.2 - col)) 16
          (kp.1 + intSign (kp.1 - row)) (kp.2 + intSign (kp.2 - col))
        with ⟨k, hk, hhit, hclear, heq⟩ | ⟨heq, hnone⟩
      · rw [heq] at h
        have hc := PinInfo.mk.injEq true (intSign (kp.1 - row)) (intSign (kp.2 - col))
          (kp.1 + intSign (kp.1 - row) + k * intSign (kp.1 - row))
          (kp.2 + intSign (kp.2 - col) + k * intSign (kp.2 - col)) true dr dc qr qc ▸ h
        obtain ⟨_, hdr, hdc, hqr, hqc⟩ := hc
        refine ⟨hemp, kp.1, kp.2, rfl, hal, hdr.symm, hdc.symm, k, hk, ?_, ?_, ?_, ?_⟩
        · rw [hdr] at hqr
          exact hqr.symm
        · rw [hdc] at hqc
          exact hqc.symm
        · rw [hdr, hdc] at hhit
          exact hhit
        · rw [hdr, hdc] at hclear
          exact hclear
      · rw [heq] at h
        exact absurd h (by simp [noPin])
    · rw [if_pos (by simpa using hal)] at h
      exact absurd h (by simp [noPin])
  · rintro ⟨hemp, kr, kc, hfk, hal, hdr, hdc, k, hk, hqr, hqc, hhit, hclear⟩
    rw [getPinInfo, if_neg hemp, hfk]
    simp only [Option.elim_some]
    rw [if_neg (not_not_intro hal)]
    rcases pinScan_characterization s (s.board row col).isUpper
        (intSign (kr - row)) (intSign (kc - col)) 16
        (kr + intSign (kr - row)) (kc + intSign (kc - col))
      with ⟨k2, hk2, hhit2, hclear2, heq⟩ | ⟨heq, hnone⟩
    · rw [heq]
      have hhit3 : pinHit s (s.board row col).isUpper (intSign (kr - row))
          (intSign (kc - col)) (kr + intSign (kr - row)) (kc + intSign (kc - col)) k := by
        rw [← hdr, ← hdc]
        exact hhit
      have hclear3 : pinClearBefore s (intSign (kr - row)) (intSign (kc - col))
          (kr + intSign (kr - row)) (kc + intSign (kc - col)) k := by
        rw [← hdr, ← hdc]
        exact hclear
      have hkk : k = k2 := pinHit_unique s (s.board row col).isUpper
        (intSign (kr - row)) (intSign (kc - col)) (kr + intSign (kr - row))
        (kc + intSign (kc - col)) k k2 hhit3 hclear3 hhit2 hclear2
      subst hkk
      rw [PinInfo.mk.injEq]
      refine ⟨rfl, hdr.symm, hdc.symm, ?_, ?_⟩
      · rw [hqr, hdr]
      · rw [hqc, hdc]
    · exfalso
      apply hnone
      refine ⟨k, hk, ?_, ?_⟩
      · rw [← hdr, ← hdc]
        exact hhit
      · rw [← hdr, ← hdc]
        exact hclear

/-- isValidMove rejects any move of a piece getPinInfo reports pinned whose
direction is not along the reported pin ray. -/
theorem isValidMove_pinRejected (s : GameState) (fr fc tr tc : Int)
    (hp : (getPinInfo s fr fc).isPinned = true)
    (ha : isMoveAlongPinRay fr fc tr tc (getPinInfo s fr fc) = false) :
    isValidMove s fr fc tr tc = false := by
  simp [isValidMove, hp, ha]

/-- Claim C7 (counterexample): getPinInfo reports the white rook on (2,4)
of pinCxState as pinned although it does not sit between its king and an
aligned enemy slider with the between-squares empty — the enemy queen is on
the far side of the king. -/
theorem pin_claim_counterexample :
    (getPinInfo pinCxState 2 4).isPinned = true ∧ ¬ pinnedSpec pinCxState 2 4 := by
  constructor
  · decide
  · decide

/-- Claim C7 (amended): getPinInfo reports isPinned with direction (dr,dc)
and pinning square (qr,qc) exactly when the queried square is occupied, a
first-found own king exists aligned with it, (dr,dc) is the normalized
piece-to-king direction, and (qr,qc) is the first occupied square walking
from the king onward in that direction (squares before it empty) holding
an enemy rook/queen on a straight ray or bishop/queen on a diagonal; and
isValidMove rejects any move of a piece reported pinned whose normalized
direction is not plus or minus the reported pin direction. -/
theorem pin_rule_amended (s : GameState) (row col : Int) :
    (∀ dr dc qr qc : Int,
      getPinInfo s row col = ⟨true, dr, dc, qr, qc⟩ ↔
      (s.board row col ≠ EMPTY ∧
       ∃ kr kc : Int,
         findKing s.board (if (s.board row col).isUpper then 'K' else 'k') = some (kr, kc) ∧
         (kr - row = 0 ∨ kc - col = 0 ∨ (kr - row).natAbs = (kc - col).natAbs) ∧
         dr = intSign (kr - row) ∧ dc = intSign (kc - col) ∧
         ∃ k : Nat, k < 16 ∧
           qr = kr + dr + k * dr ∧ qc = kc + dc + k * dc ∧
           pinHit s (s.board row col).isUpper dr dc (kr + dr) (kc + dc) k ∧
           pinClearBefore s dr dc (kr + dr) (kc + dc) k)) ∧
    (∀ tr tc : Int, (getPinInfo s row col).isPinned = true →
      isMoveAlongPinRay row col tr tc (getPinInfo s row col) = false →
      isValidMove s row col tr tc = false) :=
  ⟨fun dr dc qr qc => getPinInfo_eq_iff s row col dr dc qr qc,
   fun tr tc hp ha => isValidMove_pinRejected s row col tr tc hp ha⟩

/-- Witness for claim C7 at pinCxState: the reported pin direction is
(1,0), so the sideways rook move (2,4) to (2,5) is rejected. -/
theorem pin_rule_amended_witness :
    isValidMove pinCxState 2 4 2 5 = false :=
  (pin_rule_amended pinCxState 2 4).2 2 5 (by decide) (by decide)


/-- Characterization of the rook walk loop: success exactly when some step
count lands on the target with every strictly earlier square on the board
and empty. -/
theorem rookWalk_iff (b : Int → Int → Char) (tr tc sr sc : Int) :
    ∀ (fuel : Nat) (r0 c0 : Int),
    rookWalk b tr tc sr sc fuel r0 c0 = true ↔
    ∃ n : Nat, n < fuel ∧ r0 + n * sr = tr ∧ c0 + n * sc = tc ∧
      ∀ j : Nat, j < n → inB (r0 + j * sr) (c0 + j * sc) ∧
        b (r0 + j * sr) (c0 + j * sc) = EMPTY := by
  intro fuel
  induction fuel with
  | zero =>
    intro r0 c0
    rw [rookWalk]
    simp only [Bool.false_eq_true, false_iff]
    rintro ⟨n, hn, _⟩
    omega
  | succ fuel ih =>
    intro r0 c0
    rw [rookWalk]
    by_cases htgt : r0 = tr ∧ c0 = tc
    · rw [if_pos htgt]
      simp only [true_iff]
      exact ⟨0, by omega, by push_cast; omega, by push_cast; omega, by intro j hj; omega⟩
    rw [if_neg htgt]
    by_cases hin : inB r0 c0
    · rw [if_neg (not_not_intro hin)]
      by_cases hocc : b r0 c0 = EMPTY
      · rw [if_neg (by simpa using hocc)]
        rw [ih (r0 + sr) (c0 + sc)]
        constructor
        · rintro ⟨n, hn, htr, htc, hemp⟩
          refine ⟨n + 1, by omega, by push_cast at htr ⊢; linarith, by push_cast at htc ⊢; linarith, ?_⟩
          intro j hj
          cases j with
          | zero => simpa using ⟨hin, hocc⟩
          | succ j =>
            have hc := hemp j (by omega)
            have e1 : r0 + sr + (j : Int) * sr = r0 + ((j : Nat) + 1 : Nat) * sr := by
              push_cast; ring
            have e2 : c0 + sc + (j : Int) * sc = c0 + ((j : Nat) + 1 : Nat) * sc := by
              push_cast; ring
            rw [e1, e2] at hc
            exact hc
        · rintro ⟨n, hn, htr, htc, hemp⟩
          cases n with
          | zero =>
            simp only [Nat.cast_zero, zero_mul, add_zero] at htr htc
            exact absurd ⟨htr, htc⟩ htgt
          | succ n =>
            refine ⟨n, by omega, by push_cast at htr ⊢; linarith, by push_cast at htc ⊢; linarith, ?_⟩
            intro j hj
            have hc := hemp (j + 1) (by omega)
            have e1 : r0 + ((j : Nat) + 1 : Nat) * sr = r0 + sr + (j : Int) * sr := by
              push_cast; ring
            have e2 : c0 + ((j : Nat) + 1 : Nat) * sc = c0 + sc + (j : Int) * sc := by
              push_cast; ring
            rw [e1, e2] at hc
            exact hc
      · rw [if_pos (by simpa using hocc)]
        simp only [Bool.false_eq_true, false_iff]
        rintro ⟨n, hn, htr, htc, hemp⟩
        cases n with
        | zero =>
          simp only [Nat.cast_zero, zero_mul, add_zero] at htr htc
          exact htgt ⟨htr, htc⟩
        | succ n =>
          have hc := hemp 0 (by omega)
          simp only [Nat.cast_zero, zero_mul, add_zero] at hc
          exact hocc hc.2
    · rw [if_pos hin]
      simp only [Bool.false_eq_true, false_iff]
      rintro ⟨n, hn, htr, htc, hemp⟩
      cases n with
      | zero =>
        simp only [Nat.cast_zero, zero_mul, add_zero] at htr htc
        exact htgt ⟨htr, htc⟩
      | succ n =>
        have hc := hemp 0 (by omega)
        simp only [Nat.cast_zero, zero_mul, add_zero] at hc
        exact hin hc.1

/-- A predicate holding exactly at one element of a duplicate-free list has
countP one. -/
theorem countP_eq_one_of_unique {α : Type} (l : List α) (q : α → Bool) (x : α)
    (hx : x ∈ l) (hq : ∀ a ∈ l, q a = true ↔ a = x) (hnd : l.Nodup) :
    l.countP q = 1 := by
  induction l with
  | nil => cases hx
  | cons a t ih =>
    rw [List.countP_cons]
    rw [List.nodup_cons] at hnd
    rcases List.mem_cons.mp hx with hax | hxt
    · have hqa : q a = true := (hq a (List.mem_cons_self a t)).mpr hax.symm
      rw [hqa]
      have ht0 : t.countP q = 0 := by
        rw [List.countP_eq_zero]
        intro b hb
        intro hqb
        have hbx : b = x := (hq b (List.mem_cons_of_mem a hb)).mp hqb
        rw [hbx, hax] at hb
        exact hnd.1 hb
      rw [ht0]
      decide
    · have hqa : q a = false := by
        cases hv : q a
        · rfl
        · have := (hq a (List.mem_cons_self a t)).mp hv
          rw [this] at hnd
          exact absurd hxt hnd.1
      rw [hqa]
      have := ih hxt (fun b hb => hq b (List.mem_cons_of_mem a hb)) hnd.2
      rw [this]
      decide

/-- When a board has the king character exactly on one square, findKing
returns that square. -/
theorem findKing_pointwise (b : Int → Int → Char) (k : Char) (r c : Int)
    (hin : inB r c)
    (h : ∀ p ∈ allSquares, b p.1 p.2 = k ↔ p = (r, c)) :
    findKing b k = some (r, c) := by
  apply findKing_unique b k r c ?_ ((h (r, c) ((mem_allSquares r c).mpr hin)).mpr rfl) hin
  apply countP_eq_one_of_unique allSquares _ (r, c) ((mem_allSquares r c).mpr hin)
  · intro p hp
    constructor
    · intro hd
      exact (h p hp).mp (by simpa using hd)
    · intro hd
      simpa using (h p hp).mpr hd
  · decide

/-- Off the castling squares (7,4) and (7,6), the simulated board agrees
with the original one. -/
theorem simB_ne (s : GameState) (r c : Int)
    (h4 : ¬ (r = 7 ∧ c = 4)) (h6 : ¬ (r = 7 ∧ c = 6)) :
    simB s r c = s.board r c := by
  simp only [simB, setB, if_neg h4, if_neg h6]

/-- If the original board has its lone white king on (7,4), the simulated
board has it exactly on (7,6). -/
theorem simB_king_pointwise (s : GameState)
    (huniq : ∀ p ∈ allSquares, s.board p.1 p.2 = 'K' ↔ p = ((7 : Int), (4 : Int))) :
    ∀ p ∈ allSquares, simB s p.1 p.2 = 'K' ↔ p = ((7 : Int), (6 : Int)) := by
  rintro ⟨pi, pj⟩ hp
  by_cases h4 : pi = 7 ∧ pj = 4
  · rw [h4.1, h4.2]
    rw [show simB s 7 4 = EMPTY from by norm_num [simB, setB]]
    simp only [Prod.mk.injEq]
    decide
  · by_cases h6 : pi = 7 ∧ pj = 6
    · rw [h6.1, h6.2]
      rw [show simB s 7 6 = 'K' from by norm_num [simB, setB]]
      simp [Prod.mk.injEq]
    · rw [simB_ne s pi pj h4 h6]
      have := huniq (pi, pj) hp
      simp only [Prod.mk.injEq] at this ⊢
      rw [this]
      constructor
      · rintro ⟨h1, h2⟩; exact absurd ⟨h1, h2⟩ h4
      · rintro ⟨h1, h2⟩; exact absurd ⟨h1, h2⟩ h6

/-- bishopWalk reads the board only off the target row and column, so it is
insensitive to board changes there. -/
theorem bishopWalk_congr (b b2 : Int → Int → Char) (tr tc sr sc : Int)
    (h : ∀ r c : Int, r ≠ tr → c ≠ tc → b r c = b2 r c) :
    ∀ (fuel : Nat) (r0 c0 : Int),
    bishopWalk b tr tc sr sc fuel r0 c0 = bishopWalk b2 tr tc sr sc fuel r0 c0 := by
  intro fuel
  induction fuel with
  | zero => intro r0 c0; rw [bishopWalk, bishopWalk]
  | succ fuel ih =>
    intro r0 c0
    rw [bishopWalk, bishopWalk]
    by_cases hstop : r0 = tr ∨ c0 = tc
    · rw [if_pos hstop, if_pos hstop]
    · rw [if_neg hstop, if_neg hstop]
      push_neg at hstop
      rw [h r0 c0 hstop.1 hstop.2]
      by_cases hin : inB r0 c0
      · rw [if_neg (not_not_intro hin), if_neg (not_not_intro hin)]
        by_cases hocc : b2 r0 c0 = EMPTY
        · rw [if_neg (by simpa using hocc), if_neg (by simpa using hocc)]
          exact ih (r0 + sr) (c0 + sc)
        · rw [if_pos (by simpa using hocc), if_pos (by simpa using hocc)]
      · rw [if_pos hin, if_pos hin]

/-- isValidBishopMove is insensitive to board changes on the target row or
column. -/
theorem isValidBishopMove_congr (s s2 : GameState) (fr fc tr tc : Int)
    (h : ∀ r c : Int, r ≠ tr → c ≠ tc → s.board r c = s2.board r c) :
    isValidBishopMove s fr fc tr tc = isValidBishopMove s2 fr fc tr tc := by
  simp only [isValidBishopMove]
  by_cases h1 : (tr - fr).natAbs ≠ (tc - fc).natAbs
  · rw [if_pos h1, if_pos h1]
  · rw [if_neg h1, if_neg h1]
    by_cases h2 : fr = tr ∧ fc = tc
    · rw [if_pos h2, if_pos h2]
    · rw [if_neg h2, if_neg h2]
      exact bishopWalk_congr s.board s2.board tr tc _ _ h 16 _ _

/-- The step expression of the sliding validators takes one of the values
1, -1, 0. -/
theorem stepSign_cases (x y : Int) :
    (if x > y then (1 : Int) else if x < y then (-1 : Int) else 0) = 1 ∨
    (if x > y then (1 : Int) else if x < y then (-1 : Int) else 0) = -1 ∨
    (if x > y then (1 : Int) else if x < y then (-1 : Int) else 0) = 0 := by
  split_ifs <;> simp

/-- Transfer of a rook walk on the castled-king simulated board back to the
original board: either the same walk succeeds there, or the walk ran along
row 7 through the vacated king square (7,4), in which case the walk to
(7,4) succeeds on the original board. -/
theorem rookWalk_sim_transfer (s : GameState) (sr sc i j : Int)
    (hsr : sr = 1 ∨ sr = -1 ∨ sr = 0) (hsc : sc = 1 ∨ sc = -1 ∨ sc = 0)
    (hne : ¬ (i = 7 ∧ j = 6))
    (hw : rookWalk (simB s) 7 6 sr sc 16 (i + sr) (j + sc) = true) :
    rookWalk s.board 7 6 sr sc 16 (i + sr) (j + sc) = true ∨
    (sr = 0 ∧ i = 7 ∧ j < 4 ∧ sc = 1 ∧
      rookWalk s.board 7 4 0 1 16 7 (j + 1) = true) := by
  obtain ⟨n, hn, htr, htc, hpath⟩ :=
    (rookWalk_iff (simB s) 7 6 sr sc 16 (i + sr) (j + sc)).mp hw
  by_cases hex : ∃ k : Nat, k < n ∧ i + sr + (k : Int) * sr = 7 ∧ j + sc + (k : Int) * sc = 4
  · obtain ⟨k, hkn, hk7, hk4⟩ := hex
    have hsr0 : sr = 0 := by
      rcases hsr with h | h | h
      · subst h; omega
      · subst h; omega
      · exact h
    subst hsr0
    have hi7 : i = 7 := by omega
    subst hi7
    have hsc1 : sc = 1 := by
      rcases hsc with h | h | h
      · exact h
      · subst h; omega
      · subst h; omega
    subst hsc1
    have hj : j < 4 := by omega
    refine Or.inr ⟨rfl, rfl, hj, rfl, ?_⟩
    apply (rookWalk_iff s.board 7 4 0 1 16 7 (j + 1)).mpr
    refine ⟨k, by omega, by omega, by omega, ?_⟩
    intro m hm
    have hp := hpath m (by omega)
    simp only [mul_zero, add_zero, mul_one] at hp ⊢
    refine ⟨hp.1, ?_⟩
    have h4 : ¬ ((7 : Int) = 7 ∧ j + 1 + (m : Int) = 4) := by omega
    have h6 : ¬ ((7 : Int) = 7 ∧ j + 1 + (m : Int) = 6) := by omega
    rw [← simB_ne s 7 (j + 1 + (m : Int)) h4 h6]
    exact hp.2
  · left
    apply (rookWalk_iff s.board 7 6 sr sc 16 (i + sr) (j + sc)).mpr
    refine ⟨n, hn, htr, htc, ?_⟩
    intro m hm
    have hp := hpath m hm
    refine ⟨hp.1, ?_⟩
    have h4 : ¬ (i + sr + (m : Int) * sr = 7 ∧ j + sc + (m : Int) * sc = 4) := by
      intro hc
      exact hex ⟨m, hm, hc.1, hc.2⟩
    have h6 : ¬ (i + sr + (m : Int) * sr = 7 ∧ j + sc + (m : Int) * sc = 6) := by
      rcases hsr with h | h | h <;> rcases hsc with g | g | g <;> subst h <;> subst g <;> omega
    rw [← simB_ne s _ _ h4 h6]
    exact hp.2

/-- Transfer of a valid rook move onto (7,6) from the simulated board: the
same move is valid on the original board, or the attacker stands on row 7
left of the vacated king square and validly moves onto (7,4). -/
theorem rookMove_sim_transfer (s : GameState) (i j : Int)
    (hr : isValidRookMove { s with board := simB s } i j 7 6 = true) :
    isValidRookMove s i j 7 6 = true ∨
    (i = 7 ∧ j < 4 ∧ isValidRookMove s i j 7 4 = true) := by
  simp only [isValidRookMove] at hr
  by_cases hg1 : i ≠ 7 ∧ j ≠ 6
  · rw [if_pos hg1] at hr; exact absurd hr (by decide)
  rw [if_neg hg1] at hr
  by_cases hg2 : i = 7 ∧ j = 6
  · rw [if_pos hg2] at hr; exact absurd hr (by decide)
  rw [if_neg hg2] at hr
  rcases rookWalk_sim_transfer s _ _ i j (stepSign_cases 7 i) (stepSign_cases 6 j) hg2 hr with
    h | ⟨hsr0, hi7, hj4, hsc1, hwalk⟩
  · left
    simp only [isValidRookMove]
    rw [if_neg hg1, if_neg hg2]
    exact h
  · right
    refine ⟨hi7, hj4, ?_⟩
    subst hi7
    simp only [isValidRookMove]
    split_ifs <;>
      first
        | (exfalso; omega)
        | exact hwalk
        | (rw [show (7 : Int) + 0 = 7 from by norm_num]; exact hwalk)

/-- Transfer of any attack pattern onto (7,6) from the castling-simulated
board: the attacker also attacks (7,6) on the original board, or it stands
on row 7 and attacks (7,4) there. -/
theorem attackSwitch_sim_transfer (s : GameState) (piece : Char) (i j : Int)
    (ha : attackSwitch { s with board := simB s } piece i j 7 6 = true) :
    attackSwitch s piece i j 7 6 = true ∨
    (i = 7 ∧ attackSwitch s piece i j 7 4 = true) := by
  have hcong : ∀ r c : Int, r ≠ 7 → c ≠ 6 →
      ({ s with board := simB s } : GameState).board r c = s.board r c :=
    fun r c hr _hc => simB_ne s r c (fun hx => hr hx.1) (fun hx => hr hx.1)
  simp only [attackSwitch] at ha
  by_cases hP : piece.toUpper = 'P'
  · left
    simp only [attackSwitch]
    rw [if_pos hP]
    rw [if_pos hP] at ha
    exact ha
  rw [if_neg hP] at ha
  by_cases hR : piece.toUpper = 'R'
  · rw [if_pos hR] at ha
    by_cases hal : i = 7 ∨ j = 6
    · rw [if_pos hal] at ha
      rcases rookMove_sim_transfer s i j ha with h | ⟨hi7, _hj4, h⟩
      · left
        simp only [attackSwitch]
        rw [if_neg hP, if_pos hR, if_pos hal]
        exact h
      · right
        refine ⟨hi7, ?_⟩
        simp only [attackSwitch]
        rw [if_neg hP, if_pos hR, if_pos (Or.inl hi7)]
        exact h
    · rw [if_neg hal] at ha
      exact absurd ha (by decide)
  rw [if_neg hR] at ha
  by_cases hN : piece.toUpper = 'N'
  · left
    simp only [attackSwitch]
    rw [if_neg hP, if_neg hR, if_pos hN]
    rw [if_pos hN] at ha
    exact ha
  rw [if_neg hN] at ha
  by_cases hB : piece.toUpper = 'B'
  · rw [if_pos hB] at ha
    by_cases hal : (i - 7).natAbs = (j - 6).natAbs
    · rw [if_pos hal] at ha
      left
      simp only [attackSwitch]
      rw [if_neg hP, if_neg hR, if_neg hN, if_pos hB, if_pos hal]
      rw [← isValidBishopMove_congr { s with board := simB s } s i j 7 6 hcong]
      exact ha
    · rw [if_neg hal] at ha
      exact absurd ha (by decide)
  rw [if_neg hB] at ha
  by_cases hQ : piece.toUpper = 'Q'
  · rw [if_pos hQ] at ha
    by_cases hal : i = 7 ∨ j = 6 ∨ (i - 7).natAbs = (j - 6).natAbs
    · rw [if_pos hal] at ha
      rw [isValidQueenMove] at ha
      have ha2 := ha
      rw [Bool.or_eq_true] at ha2
      rcases ha2 with hrk | hbi
      · rcases rookMove_sim_transfer s i j hrk with h | ⟨hi7, _hj4, h⟩
        · left
          simp only [attackSwitch]
          rw [if_neg hP, if_neg hR, if_neg hN, if_neg hB, if_pos hQ, if_pos hal]
          rw [isValidQueenMove, h, Bool.true_or]
        · right
          refine ⟨hi7, ?_⟩
          simp only [attackSwitch]
          rw [if_neg hP, if_neg hR, if_neg hN, if_neg hB, if_pos hQ, if_pos (Or.inl hi7)]
          rw [isValidQueenMove, h, Bool.true_or]
      · have hb2 : isValidBishopMove s i j 7 6 = true := by
          rw [← isValidBishopMove_congr { s with board := simB s } s i j 7 6 hcong]
          exact hbi
        left
        simp only [attackSwitch]
        rw [if_neg hP, if_neg hR, if_neg hN, if_neg hB, if_pos hQ, if_pos hal]
        rw [isValidQueenMove, hb2, Bool.or_true]
    · rw [if_neg hal] at ha
      exact absurd ha (by decide)
  rw [if_neg hQ] at ha
  by_cases hK : piece.toUpper = 'K'
  · left
    simp only [attackSwitch]
    rw [if_neg hP, if_neg hR, if_neg hN, if_neg hB, if_neg hQ, if_pos hK]
    rw [if_pos hK] at ha
    exact ha
  · rw [if_neg hK] at ha
    exact absurd ha (by decide)

/-- Pointwise reading of a negative isSquareAttacked result for black. -/
theorem attacked_false_point (s : GameState) (row col pi pj : Int)
    (ha : isSquareAttacked s row col false = false)
    (hp : (pi, pj) ∈ allSquares)
    (hne : s.board pi pj ≠ EMPTY) (hl : (s.board pi pj).isLower = true) :
    attackSwitch s (s.board pi pj) pi pj row col = false := by
  rw [isSquareAttacked, List.any_eq_false] at ha
  have hb := ha (pi, pj) hp
  cases hat : attackSwitch s (s.board pi pj) pi pj row col
  · rfl
  · exfalso
    apply hb
    show (if s.board pi pj ≠ EMPTY ∧
          ((if (false : Bool) then (s.board pi pj).isUpper else (s.board pi pj).isLower) = true)
        then attackSwitch s (s.board pi pj) pi pj row col else false) = true
    rw [if_pos ⟨hne, by simpa using hl⟩, hat]

/-- After the castling king move is simulated on the board, (7,6) is still
not attacked by black, provided (7,4) and (7,6) were unattacked before. -/
theorem simAttacked_false (s : GameState)
    (ha4 : isSquareAttacked s 7 4 false = false)
    (ha6 : isSquareAttacked s 7 6 false = false) :
    isSquareAttacked { s with board := simB s } 7 6 false = false := by
  rw [isSquareAttacked, List.any_eq_false]
  rintro ⟨pi, pj⟩ hp
  intro hbody
  have hb2 : (if simB s pi pj ≠ EMPTY ∧
        ((if (false : Bool) then (simB s pi pj).isUpper else (simB s pi pj).isLower) = true)
      then attackSwitch { s with board := simB s } (simB s pi pj) pi pj 7 6 else false) =
      true := hbody
  by_cases hc : simB s pi pj ≠ EMPTY ∧
      ((if (false : Bool) then (simB s pi pj).isUpper else (simB s pi pj).isLower) = true)
  · rw [if_pos hc] at hb2
    have hne := hc.1
    have hl : (simB s pi pj).isLower = true := by simpa using hc.2
    by_cases h4 : pi = 7 ∧ pj = 4
    · apply hne
      rw [h4.1, h4.2]
      norm_num [simB, setB]
    · by_cases h6 : pi = 7 ∧ pj = 6
      · rw [h6.1, h6.2] at hl
        rw [show simB s 7 6 = 'K' from by norm_num [simB, setB]] at hl
        exact absurd hl (by decide)
      · have hbeq : simB s pi pj = s.board pi pj := simB_ne s pi pj h4 h6
        rw [hbeq] at hne hl
        rw [hbeq] at hb2
        rcases attackSwitch_sim_transfer s (s.board pi pj) pi pj hb2 with h | ⟨hi7, h⟩
        · have hfalse := attacked_false_point s 7 6 pi pj ha6 hp hne hl
          rw [h] at hfalse
          exact absurd hfalse (by decide)
        · have hfalse := attacked_false_point s 7 4 pi pj ha4 hp hne hl
          rw [h] at hfalse
          exact absurd hfalse (by decide)
  · rw [if_neg hc] at hb2
    exact absurd hb2 (by decide)

/-- isInCheck reduces to an attack query on the square findKing returns. -/
theorem isInCheck_eq_of_findKing (s : GameState) (w : Bool) (kr kc : Int)
    (hfk : findKing s.board (if w then 'K' else 'k') = some (kr, kc)) :
    isInCheck s w = isSquareAttacked s kr kc (!w) := by
  simp only [isInCheck]
  rw [hfk]

/-- attackSwitch reads the state only through its board. -/
theorem attackSwitch_board_congr (s s2 : GameState) (h : s.board = s2.board)
    (piece : Char) (i j row col : Int) :
    attackSwitch s piece i j row col = attackSwitch s2 piece i j row col := by
  simp only [attackSwitch, isValidRookMove, isValidBishopMove, isValidKnightMove,
    isValidQueenMove, h]

/-- isSquareAttacked reads the state only through its board. -/
theorem isSquareAttacked_board_congr (s s2 : GameState) (h : s.board = s2.board)
    (row col : Int) (w : Bool) :
    isSquareAttacked s row col w = isSquareAttacked s2 row col w := by
  simp only [isSquareAttacked]
  congr 1
  funext p
  rw [h, attackSwitch_board_congr s s2 h]

/-- simAttacked_false for any state carrying the simulated board. -/
theorem simAttacked_false_any (s s3 : GameState) (hb : s3.board = simB s)
    (ha4 : isSquareAttacked s 7 4 false = false)
    (ha6 : isSquareAttacked s 7 6 false = false) :
    isSquareAttacked s3 7 6 false = false := by
  rw [isSquareAttacked_board_congr s3 { s with board := simB s } hb]
  exact simAttacked_false s ha4 ha6

/-- The castling king move (7,4) -> (7,6) passes the generic self-check
simulation when (7,4) and (7,6) are safe beforehand. -/
theorem castle_selfCheck_false (s : GameState)
    (hw : s.isWhiteTurn = true) (hK : s.board 7 4 = 'K')
    (huniq : ∀ p ∈ allSquares, s.board p.1 p.2 = 'K' ↔ p = ((7 : Int), (4 : Int)))
    (ha4 : isSquareAttacked s 7 4 false = false)
    (ha6 : isSquareAttacked s 7 6 false = false) :
    doesMovePutKingInCheck s 7 4 7 6 = false := by
  simp only [doesMovePutKingInCheck, hK, hw]
  have hfk6 : ∀ s3 : GameState, s3.board = setB (setB s.board 7 6 'K') 7 4 EMPTY →
      findKing s3.board (if (true : Bool) then 'K' else 'k') = some ((7 : Int), (6 : Int)) := by
    intro s3 hb3
    rw [hb3]
    show findKing (setB (setB s.board 7 6 'K') 7 4 EMPTY) 'K' = some ((7 : Int), (6 : Int))
    exact findKing_pointwise _ 'K' 7 6 (by decide) (simB_king_pointwise s huniq)
  rw [isInCheck_eq_of_findKing _ true 7 6 (hfk6 _ rfl)]
  exact simAttacked_false_any s _ rfl ha4 ha6

/-- With the lone white king on its start square unattacked, the side is
not in check. -/
theorem castle_notInCheck (s : GameState)
    (huniq : ∀ p ∈ allSquares, s.board p.1 p.2 = 'K' ↔ p = ((7 : Int), (4 : Int)))
    (ha4 : isSquareAttacked s 7 4 false = false) :
    isInCheck s true = false := by
  rw [isInCheck_eq_of_findKing s true 7 4 (by
    show findKing s.board 'K' = some ((7 : Int), (4 : Int))
    exact findKing_pointwise s.board 'K' 7 4 (by decide) huniq)]
  exact ha4

/-- The king itself is never reported pinned: the pin scan starts on the
king square, which holds a friendly piece. -/
theorem castle_king_noPin (s : GameState) (hK : s.board 7 4 = 'K')
    (huniq : ∀ p ∈ allSquares, s.board p.1 p.2 = 'K' ↔ p = ((7 : Int), (4 : Int))) :
    getPinInfo s 7 4 = noPin := by
  simp only [getPinInfo, hK]
  rw [if_neg (by decide : ¬ ('K' = EMPTY))]
  rw [show (if ('K').isUpper then 'K' else 'k') = 'K' from by decide]
  rw [findKing_pointwise s.board 'K' 7 4 (by decide) huniq]
  simp only [Option.elim_some]
  rw [if_neg (not_not_intro (Or.inl (by decide)))]
  norm_num [intSign]
  rw [show (16 : Nat) = 15 + 1 from rfl, pinScan]
  rw [if_neg (not_not_intro (by decide : inB 7 4))]
  simp only [hK]
  rw [if_pos (by decide : ('K' : Char) ≠ EMPTY)]
  rw [if_neg (by decide)]

/-- The kingside castling validator accepts (7,4) -> (7,6) under the
scenario hypotheses. -/
theorem castle_kingside_valid (s : GameState)
    (hck : s.canWhiteCastleKingside = true)
    (hK : s.board 7 4 = 'K') (hR : s.board 7 7 = 'R')
    (h5 : s.board 7 5 = EMPTY) (h6 : s.board 7 6 = EMPTY)
    (huniq : ∀ p ∈ allSquares, s.board p.1 p.2 = 'K' ↔ p = ((7 : Int), (4 : Int)))
    (ha4 : isSquareAttacked s 7 4 false = false)
    (ha5 : isSquareAttacked s 7 5 false = false)
    (ha6 : isSquareAttacked s 7 6 false = false) :
    isValidCastling s 7 4 7 6 = true := by
  have hic : isInCheck s true = false := castle_notInCheck s huniq ha4
  simp only [isValidCastling, hK, show ('K').isUpper = true from rfl]
  rw [if_neg (not_not_intro (by decide))]
  rw [if_neg (not_not_intro (by decide))]
  rw [if_neg (by rw [hic]; decide)]
  rw [if_neg (fun hc => hc.2.2 hck)]
  rw [if_neg (fun hc => hc.2.1 (by decide))]
  rw [if_neg (fun hc => hc.1 trivial)]
  rw [if_neg (fun hc => hc.1 trivial)]
  rw [show (if (6 : Int) > 4 then (7 : Int) else 0) = 7 from by norm_num]
  rw [if_neg (not_not_intro ?_)]
  · rw [if_pos (by decide : (6 : Int) > 4)]
    rw [h5, h6, show (!true) = false from rfl, ha4, ha5, ha6]
    decide
  · rw [hR]
    show ('R' : Char) = if true = true then 'R' else 'r'
    decide

/-- C5: with white to move, both white castling rights intact, the lone
white king on (7,4), the rook on (7,7), squares (7,5) and (7,6) empty and
(7,4), (7,5), (7,6) unattacked by black, the king move (7,4) -> (7,6) is
accepted by isValidMove, and makeMove relocates the rook from (7,7) to
(7,5) and clears both white castling rights. -/
theorem castling_kingside_scenario (s : GameState)
    (hw : s.isWhiteTurn = true)
    (hck : s.canWhiteCastleKingside = true)
    (hcq : s.canWhiteCastleQueenside = true)
    (hK : s.board 7 4 = 'K') (hR : s.board 7 7 = 'R')
    (h5 : s.board 7 5 = EMPTY) (h6 : s.board 7 6 = EMPTY)
    (huniq : ∀ p ∈ allSquares, s.board p.1 p.2 = 'K' ↔ p = ((7 : Int), (4 : Int)))
    (ha4 : isSquareAttacked s 7 4 false = false)
    (ha5 : isSquareAttacked s 7 5 false = false)
    (ha6 : isSquareAttacked s 7 6 false = false) :
    isValidMove s 7 4 7 6 = true ∧
    (makeMove s 7 4 7 6 'Q').board 7 5 = 'R' ∧
    (makeMove s 7 4 7 6 'Q').board 7 7 = EMPTY ∧
    (makeMove s 7 4 7 6 'Q').board 7 6 = 'K' ∧
    (makeMove s 7 4 7 6 'Q').board 7 4 = EMPTY ∧
    (makeMove s 7 4 7 6 'Q').canWhiteCastleKingside = false ∧
    (makeMove s 7 4 7 6 'Q').canWhiteCastleQueenside = false := by
  have hcastle := castle_kingside_valid s hck hK hR h5 h6 huniq ha4 ha5 ha6
  have hpin := castle_king_noPin s hK huniq
  have hdm := castle_selfCheck_false s hw hK huniq ha4 ha6
  have hdisp : pieceDispatch s 'K' 7 4 7 6 = true := by
    rw [pieceDispatch_king s 'K' 7 4 7 6 (by decide)]
    rw [isValidKingMove]
    rw [if_neg (by decide : ¬ (((7 : Int) - 7).natAbs ≤ 1 ∧ ((6 : Int) - 4).natAbs ≤ 1))]
    rw [if_pos (by decide : ((4 : Int) - 6).natAbs = 2 ∧ (7 : Int) = 7)]
    exact hcastle
  have hvalid : isValidMove s 7 4 7 6 = true := by
    simp only [isValidMove, hK, h6, hw]
    rw [if_neg (not_not_intro ⟨by decide, by decide⟩)]
    rw [if_neg (by decide : ¬ ('K' = EMPTY))]
    rw [if_neg (by decide)]
    rw [if_neg (by decide)]
    rw [if_neg (by decide)]
    rw [if_neg (by decide)]
    rw [if_neg (not_not_intro (by decide : knownPiece 'K'))]
    rw [if_neg (not_not_intro hdisp)]
    rw [hpin]
    rw [if_neg (by decide)]
    rw [hdm]
    decide
  refine ⟨hvalid, ?_, ?_, ?_, ?_, ?_, ?_⟩ <;>
    simp +decide only [makeMove, updateCastlingRights, promotePawnWith, setB, hK, h6, hw, hR,
      if_true, if_false, false_and, true_and, and_false, and_true, false_or, or_false,
      true_or, or_true]

theorem castling_kingside_scenario_witness :
    castleWitState.isWhiteTurn = true ∧
    isValidMove castleWitState 7 4 7 6 = true ∧
    (makeMove castleWitState 7 4 7 6 'Q').board 7 5 = 'R' ∧
    (makeMove castleWitState 7 4 7 6 'Q').board 7 7 = EMPTY ∧
    (makeMove castleWitState 7 4 7 6 'Q').canWhiteCastleKingside = false ∧
    (makeMove castleWitState 7 4 7 6 'Q').canWhiteCastleQueenside = false := by
  have h := castling_kingside_scenario castleWitState (by decide) (by decide) (by decide)
    (by decide) (by decide) (by decide) (by decide) (by decide) (by decide) (by decide)
    (by decide)
  exact ⟨by decide, h.1, h.2.1, h.2.2.1, h.2.2.2.2.2.1, h.2.2.2.2.2.2⟩


/-- The two-write board mutation of the search simulation followed by its
two-write undo restores the board exactly (also when source and target
coincide). -/
theorem undo_board (b : Int → Int → Char) (fr fc tr tc : Int) :
    setB (setB (setB (setB b tr tc (b fr fc)) fr fc EMPTY) fr fc
        ((setB (setB b tr tc (b fr fc)) fr fc EMPTY) tr tc)) tr tc (b tr tc) = b := by
  funext r c
  by_cases h1 : r = tr ∧ c = tc
  · simp [setB, h1.1, h1.2]
  · by_cases h2 : r = fr ∧ c = fc
    · by_cases h3 : fr = tr ∧ fc = tc
      · exact absurd ⟨h2.1.trans h3.1, h2.2.trans h3.2⟩ h1
      · simp [setB, h1, h2.1, h2.2, h3]
        intro htr htc
        exact absurd ⟨htr.symm, htc.symm⟩ h3
    · simp [setB, h1, h2]

/-- A record update that rewrites the board back to its own value is the
identity (stated for rewriting with a board-restoring equation). -/
theorem board_update_self (s : GameState) (b : Int → Int → Char) (h : b = s.board) :
    { s with board := b } = s := by
  rw [h]

/-- The isSquareAttacked loop restores the turn flag around every dispatch,
so it returns the entry state. -/
theorem isSquareAttackedLoop_snd (row col : Int) (w : Bool) :
    ∀ (l : List (Int × Int)) (st : GameState), (isSquareAttackedLoop row col w l st).2 = st := by
  intro l
  induction l with
  | nil => intro st; rfl
  | cons p rest ih =>
    intro st
    simp only [isSquareAttackedLoop]
    by_cases hc : st.board p.1 p.2 ≠ EMPTY ∧
        ((if w then (st.board p.1 p.2).isUpper else (st.board p.1 p.2).isLower) = true)
    · rw [if_pos hc]
      by_cases hv : attackSwitch { st with isWhiteTurn := w } (st.board p.1 p.2) p.1 p.2
          row col = true
      · rw [if_pos hv]
      · rw [if_neg hv]
        exact ih st
    · rw [if_neg hc]
      exact ih st

/-- isSquareAttackedS returns the entry state. -/
theorem isSquareAttackedS_snd (s : GameState) (row col : Int) (w : Bool) :
    (isSquareAttackedS s row col w).2 = s :=
  isSquareAttackedLoop_snd row col w allSquares s

/-- isInCheckS returns the entry state. -/
theorem isInCheckS_snd (s : GameState) (w : Bool) : (isInCheckS s w).2 = s := by
  rw [isInCheckS]
  rcases hfk : findKing s.board (if w then 'K' else 'k') with _ | kp
  · rfl
  · exact isSquareAttackedS_snd s kp.1 kp.2 (!w)

/-- doesMovePutKingInCheckS returns the entry state: the board mutation is
undone after the check test. -/
theorem doesMovePutKingInCheckS_snd (s : GameState) (fr fc tr tc : Int) :
    (doesMovePutKingInCheckS s fr fc tr tc).2 = s := by
  simp only [doesMovePutKingInCheckS]
  rw [isInCheckS_snd
    { s with board := setB (setB s.board tr tc (s.board fr fc)) fr fc EMPTY } s.isWhiteTurn]
  exact board_update_self s _ (undo_board s.board fr fc tr tc)

set_option maxHeartbeats 1600000 in
/-- isValidCastlingS returns the entry state. -/
theorem isValidCastlingS_snd (s : GameState) (fr fc tr tc : Int) :
    (isValidCastlingS s fr fc tr tc).2 = s := by
  dsimp only [isValidCastlingS]
  rw [isInCheckS_snd s ((s.board fr fc).isUpper)]
  rw [isSquareAttackedS_snd s fr 4 (!(s.board fr fc).isUpper)]
  rw [isSquareAttackedS_snd s fr 5 (!(s.board fr fc).isUpper)]
  rw [isSquareAttackedS_snd s fr 3 (!(s.board fr fc).isUpper)]
  rw [isSquareAttackedS_snd s fr 6 (!(s.board fr fc).isUpper)]
  rw [isSquareAttackedS_snd s fr 2 (!(s.board fr fc).isUpper)]
  simp only [apply_ite (Prod.snd : Bool × GameState → GameState), ite_self]

/-- isValidKingMoveS returns the entry state. -/
theorem isValidKingMoveS_snd (s : GameState) (fr fc tr tc : Int) :
    (isValidKingMoveS s fr fc tr tc).2 = s := by
  simp only [isValidKingMoveS]
  split_ifs
  · rfl
  · exact isValidCastlingS_snd s fr fc tr tc
  · rfl

/-- pieceDispatchS returns the entry state. -/
theorem pieceDispatchS_snd (s : GameState) (piece : Char) (fr fc tr tc : Int) :
    (pieceDispatchS s piece fr fc tr tc).2 = s := by
  simp only [pieceDispatchS]
  split_ifs
  · rfl
  · rfl
  · rfl
  · rfl
  · rfl
  · exact isValidKingMoveS_snd s fr fc tr tc
  · rfl

/-- isValidMoveS returns the entry state: the legality query is
observationally pure on the game state. -/
theorem isValidMoveS_snd (s : GameState) (fr fc tr tc : Int) :
    (isValidMoveS s fr fc tr tc).2 = s := by
  dsimp only [isValidMoveS]
  rw [pieceDispatchS_snd s (s.board fr fc) fr fc tr tc]
  rw [doesMovePutKingInCheckS_snd s fr fc tr tc]
  simp only [apply_ite (Prod.snd : Bool × GameState → GameState), ite_self]

/-- The isPieceUnderAttack loop restores the turn flag around every
legality query, so it returns the entry state. -/
theorem pieceAttackLoop_snd (row col : Int) (w : Bool) :
    ∀ (l : List (Int × Int)) (st : GameState), (pieceAttackLoop row col w l st).2 = st := by
  intro l
  induction l with
  | nil => intro st; rfl
  | cons p rest ih =>
    intro st
    dsimp only [pieceAttackLoop]
    rw [isValidMoveS_snd { st with isWhiteTurn := (st.board p.1 p.2).isUpper } p.1 p.2 row col]
    have hst3 : ({ { st with isWhiteTurn := (st.board p.1 p.2).isUpper } with
        isWhiteTurn := st.isWhiteTurn } : GameState) = st := rfl
    rw [hst3]
    split_ifs
    · rfl
    · exact ih st
    · exact ih st

/-- isPieceUnderAttackS returns the entry state. -/
theorem isPieceUnderAttackS_snd (s : GameState) (row col : Int) :
    (isPieceUnderAttackS s row col).2 = s := by
  dsimp only [isPieceUnderAttackS]
  split_ifs
  · rfl
  · exact pieceAttackLoop_snd row col ((s.board row col).isUpper) allSquares s

/-- The attack-count loop of evaluateBoard returns the entry state. -/
theorem evalAttackCountLoop_snd (row col : Int) (w : Bool) :
    ∀ (l : List (Int × Int)) (acc : Int) (st : GameState),
    (evalAttackCountLoop row col w l acc st).2 = st := by
  intro l
  induction l with
  | nil => intro acc st; rfl
  | cons t rest ih =>
    intro acc st
    dsimp only [evalAttackCountLoop]
    rw [isValidMoveS_snd { st with isWhiteTurn := w } row col t.1 t.2]
    have hst3 : ({ { st with isWhiteTurn := w } with isWhiteTurn := st.isWhiteTurn } :
        GameState) = st := rfl
    rw [hst3]
    split_ifs <;> first | rfl | exact ih _ _

/-- The per-square evaluation loop returns the entry state. -/
theorem evalPieceLoop_snd :
    ∀ (l : List (Int × Int)) (acc : Int × Int × Int) (st : GameState),
    (evalPieceLoop l acc st).2 = st := by
  intro l
  induction l with
  | nil => intro acc st; rfl
  | cons p rest ih =>
    intro acc st
    dsimp only [evalPieceLoop]
    rw [evalAttackCountLoop_snd p.1 p.2 true allSquares 0 st]
    rw [evalAttackCountLoop_snd p.1 p.2 false allSquares 0 st]
    rw [isPieceUnderAttackS_snd st p.1 p.2]
    split_ifs <;> first | rfl | exact ih _ _

/-- evaluateKingSafetyS returns the entry state. -/
theorem evaluateKingSafetyS_snd (s : GameState) : (evaluateKingSafetyS s).2 = s := by
  dsimp only [evaluateKingSafetyS]
  rw [isInCheckS_snd s true]
  exact isInCheckS_snd s false

/-- evaluateBoardS returns the entry state. -/
theorem evaluateBoardS_snd (s : GameState) : (evaluateBoardS s).2 = s := by
  dsimp only [evaluateBoardS]
  rw [evalPieceLoop_snd allSquares (0, 0, 0) s]
  rw [evaluateKingSafetyS_snd s]
  rw [isInCheckS_snd s true]
  exact isInCheckS_snd s false

/-- scoreMoveForOrderingS returns the entry state: the board mutation is
undone before the escape-bonus query. -/
theorem scoreMoveForOrderingS_snd (s : GameState) (fr fc tr tc : Int) :
    (scoreMoveForOrderingS s fr fc tr tc).2 = s := by
  dsimp only [scoreMoveForOrderingS]
  rw [isPieceUnderAttackS_snd]
  rw [isInCheckS_snd
    { s with board := setB (setB s.board tr tc (s.board fr fc)) fr fc EMPTY }]
  exact board_update_self s _ (undo_board s.board fr fc tr tc)

/-- The destination loop of generateAllMoves returns the entry state. -/
theorem genInner_snd (fr fc : Int) :
    ∀ (l : List (Int × Int)) (acc : List ((Int × Int × Int × Int) × Int)) (st : GameState),
    (genInner fr fc l acc st).2 = st := by
  intro l
  induction l with
  | nil => intro acc st; rfl
  | cons t rest ih =>
    intro acc st
    dsimp only [genInner]
    rw [isValidMoveS_snd st fr fc t.1 t.2]
    rw [scoreMoveForOrderingS_snd st fr fc t.1 t.2]
    split_ifs <;> first | rfl | exact ih _ _

/-- The origin loop of generateAllMoves returns the entry state. -/
theorem genOuter_snd :
    ∀ (l : List (Int × Int)) (acc : List ((Int × Int × Int × Int) × Int)) (st : GameState),
    (genOuter l acc st).2 = st := by
  intro l
  induction l with
  | nil => intro acc st; rfl
  | cons f rest ih =>
    intro acc st
    dsimp only [genOuter]
    rw [genInner_snd f.1 f.2 allSquares acc st]
    split_ifs <;> first | rfl | exact ih _ _

/-- generateAllMovesS returns the entry state. -/
theorem generateAllMovesS_snd (s : GameState) : (generateAllMovesS s).2 = s :=
  genOuter_snd allSquares [] s

/-- The capture loop of quiescence restores the entry state on every some
result, provided the recursive search does. -/
theorem qInner_restore (recur : GameState → Int → Int → Bool → Option (Int × GameState))
    (hrec : ∀ (s1 : GameState) (a b : Int) (m : Bool) (r1 : Int × GameState),
      recur s1 a b m = some r1 → r1.2 = s1)
    (maxing : Bool) (fr fc : Int) :
    ∀ (l : List (Int × Int)) (alpha beta : Int) (st : GameState)
      (r : (Int ⊕ (Int × Int)) × GameState),
    qInner recur maxing fr fc l alpha beta st = some r → r.2 = st := by
  intro l
  induction l with
  | nil =>
    intro alpha beta st r h
    dsimp only [qInner] at h
    have h2 := Option.some.inj h
    subst h2
    rfl
  | cons t rest ih =>
    intro alpha beta st r h
    dsimp only [qInner] at h
    rw [isValidMoveS_snd st fr fc t.1 t.2] at h
    split_ifs at h
    all_goals try exact ih _ _ _ _ h
    all_goals (
      split at h
      · exact Option.noConfusion h
      next score st3 heq =>
        have hst3 : st3 = { st with
            board := setB (setB st.board t.1 t.2 (st.board fr fc)) fr fc EMPTY } :=
          hrec _ _ _ _ _ heq
        subst hst3
        split_ifs at h <;>
          first
            | (have h2 := Option.some.inj h
               subst h2
               exact board_update_self st _ (undo_board st.board fr fc t.1 t.2))
            | exact (ih _ _ _ _ h).trans
                (board_update_self st _ (undo_board st.board fr fc t.1 t.2)))

/-- The origin loop of quiescence restores the entry state on every some
result. -/
theorem qOuter_restore (recur : GameState → Int → Int → Bool → Option (Int × GameState))
    (hrec : ∀ (s1 : GameState) (a b : Int) (m : Bool) (r1 : Int × GameState),
      recur s1 a b m = some r1 → r1.2 = s1)
    (maxing : Bool) :
    ∀ (l : List (Int × Int)) (alpha beta : Int) (st : GameState)
      (r : (Int ⊕ (Int × Int)) × GameState),
    qOuter recur maxing l alpha beta st = some r → r.2 = st := by
  intro l
  induction l with
  | nil =>
    intro alpha beta st r h
    dsimp only [qOuter] at h
    have h2 := Option.some.inj h
    subst h2
    rfl
  | cons f rest ih =>
    intro alpha beta st r h
    dsimp only [qOuter] at h
    split_ifs at h with hC
    · split at h
      · exact Option.noConfusion h
      next v st1 heq =>
        have hst1 : st1 = st := qInner_restore recur hrec maxing f.1 f.2 _ _ _ _ _ heq
        subst hst1
        have h2 := Option.some.inj h
        subst h2
        rfl
      next a b st1 heq =>
        have hst1 : st1 = st := qInner_restore recur hrec maxing f.1 f.2 _ _ _ _ _ heq
        subst hst1
        exact ih _ _ _ _ h
    · exact ih _ _ _ _ h

/-- quiescenceS restores the entry state on every some result: all board
mutations are reverted on every return path. -/
theorem quiescenceS_restore :
    ∀ (fuel : Nat) (s : GameState) (alpha beta : Int) (m : Bool) (r : Int × GameState),
    quiescenceS fuel s alpha beta m = some r → r.2 = s := by
  intro fuel
  induction fuel with
  | zero => intro s alpha beta m r h; exact Option.noConfusion h
  | succ fuel ih =>
    intro s alpha beta m r h
    dsimp only [quiescenceS] at h
    rw [evaluateBoardS_snd s] at h
    split_ifs at h <;>
      first
        | (have h3 := Option.some.inj h
           subst h3
           rfl)
        | (split at h
           · exact Option.noConfusion h
           all_goals (
             rename_i s1 heq
             have hs1 : s1 = s :=
               qOuter_restore _ (fun s2 a b m2 r1 hh => ih s2 a b m2 r1 hh) m _ _ _ _ _ heq
             subst hs1
             have h3 := Option.some.inj h
             subst h3
             rfl))

/-- The move loop of minimax restores the entry state on every some
result. -/
theorem mmLoop_restore (recur : GameState → Int → Int → Bool → Option (Int × GameState))
    (hrec : ∀ (s1 : GameState) (a b : Int) (m : Bool) (r1 : Int × GameState),
      recur s1 a b m = some r1 → r1.2 = s1)
    (maxing : Bool) :
    ∀ (l : List ((Int × Int × Int × Int) × Int)) (best alpha beta : Int) (st : GameState)
      (r : Int × GameState),
    mmLoop recur maxing l best alpha beta st = some r → r.2 = st := by
  intro l
  induction l with
  | nil =>
    intro best alpha beta st r h
    dsimp only [mmLoop] at h
    have h2 := Option.some.inj h
    subst h2
    rfl
  | cons mv rest ih =>
    intro best alpha beta st r h
    dsimp only [mmLoop] at h
    split at h
    · exact Option.noConfusion h
    next score st2 heq =>
      have hst2 : st2 = { st with
          board := setB (setB st.board mv.1.2.2.1 mv.1.2.2.2 (st.board mv.1.1 mv.1.2.1))
            mv.1.1 mv.1.2.1 EMPTY } :=
        hrec _ _ _ _ _ heq
      subst hst2
      split_ifs at h <;>
        first
          | (have h2 := Option.some.inj h
             subst h2
             exact board_update_self st _
               (undo_board st.board mv.1.1 mv.1.2.1 mv.1.2.2.1 mv.1.2.2.2))
          | exact (ih _ _ _ _ _ h).trans
              (board_update_self st _
                (undo_board st.board mv.1.1 mv.1.2.1 mv.1.2.2.1 mv.1.2.2.2))

/-- minimaxS restores the entry state on every some result. -/
theorem minimaxS_restore :
    ∀ (fuel qfuel : Nat) (s : GameState) (depth alpha beta : Int) (m : Bool)
      (r : Int × GameState),
    minimaxS fuel qfuel s depth alpha beta m = some r → r.2 = s := by
  intro fuel
  induction fuel with
  | zero => intro qfuel s depth alpha beta m r h; exact Option.noConfusion h
  | succ fuel ih =>
    intro qfuel s depth alpha beta m r h
    dsimp only [minimaxS] at h
    split_ifs at h <;>
      first
        | exact quiescenceS_restore qfuel s alpha beta m r h
        | (rw [generateAllMovesS_snd s] at h
           first
             | (rw [isInCheckS_snd s m] at h
                have h2 := Option.some.inj h
                subst h2
                rfl)
             | exact mmLoop_restore _
                 (fun s2 a b m2 r1 hh => ih qfuel s2 (depth - 1) a b m2 r1 hh)
                 m _ _ _ _ _ _ h)

/-- Flipping one satisfied list element to unsatisfied drops countP by
exactly one on a duplicate-free list. -/
theorem countP_update {α : Type} (l : List α) (q q2 : α → Bool) (a : α)
    (hnd : l.Nodup) (ha : a ∈ l) (hqa : q a = true) (hq2a : q2 a = false)
    (hrest : ∀ x ∈ l, x ≠ a → q2 x = q x) :
    l.countP q2 + 1 = l.countP q := by
  induction l with
  | nil => cases ha
  | cons x t ih =>
    rw [List.countP_cons, List.countP_cons]
    rw [List.nodup_cons] at hnd
    rcases List.mem_cons.mp ha with hax | hat
    · subst hax
      rw [hqa, hq2a]
      have ht : t.countP q2 = t.countP q := by
        apply List.countP_congr
        intro y hy
        rw [hrest y (List.mem_cons_of_mem a hy) (fun hya => hnd.1 (hya ▸ hy))]
      rw [ht]
      simp
    · have hxa : x ≠ a := fun hxa => hnd.1 (hxa ▸ hat)
      rw [hrest x (List.mem_cons_self x t) hxa]
      have := ih hnd.2 hat (fun y hy hya => hrest y (List.mem_cons_of_mem x hy) hya)
      omega

/-- Playing a capture (occupied source onto occupied distinct target)
reduces the piece count by exactly one. -/
theorem pieceCount_capture (s : GameState) (fr fc tr tc : Int)
    (hfr : (fr, fc) ∈ allSquares) (hne : ¬ (fr = tr ∧ fc = tc))
    (hmv : s.board fr fc ≠ EMPTY) (hcap : s.board tr tc ≠ EMPTY) :
    pieceCount { s with board := setB (setB s.board tr tc (s.board fr fc)) fr fc EMPTY } + 1 =
      pieceCount s := by
  apply countP_update allSquares _ _ ((fr, fc) : Int × Int) (by decide) hfr
  · simp only [ne_eq, decide_not]
    simp [hmv]
  · simp [setB]
  · rintro ⟨x1, x2⟩ hx hxa
    simp only [ne_eq, Prod.mk.injEq, not_and] at hxa
    by_cases h1 : x1 = tr ∧ x2 = tc
    · simp only [setB, if_neg (fun hc : x1 = fr ∧ x2 = fc => hxa hc.1 hc.2), if_pos h1]
      rw [h1.1, h1.2]
      simp only [ne_eq, decide_not]
      simp [hmv, hcap]
    · simp only [setB, if_neg (fun hc : x1 = fr ∧ x2 = fc => hxa hc.1 hc.2), if_neg h1]

/-- An occupied on-board square gives a positive piece count. -/
theorem pieceCount_pos (s : GameState) (r c : Int) (hm : (r, c) ∈ allSquares)
    (ho : s.board r c ≠ EMPTY) : 1 ≤ pieceCount s := by
  rw [pieceCount]
  have : 0 < allSquares.countP fun p => s.board p.1 p.2 ≠ EMPTY := by
    rw [List.countP_pos]
    exact ⟨(r, c), hm, by simpa using ho⟩
  omega

/-- The board has 64 squares, so at most 64 pieces. -/
theorem pieceCount_le (s : GameState) : pieceCount s ≤ 64 := by
  have h := List.countP_le_length (p := fun p : Int × Int => s.board p.1 p.2 ≠ EMPTY)
    (l := allSquares)
  have hlen : allSquares.length = 64 := by decide
  rw [pieceCount]
  omega

/-- The capture loop of quiescence cannot run out: every recursive call is
on a strictly smaller piece count, so a recursion bound covering the entry
piece count never returns none. -/
theorem qInner_isSome (recur : GameState → Int → Int → Bool → Option (Int × GameState))
    (K : Nat)
    (hrec : ∀ (s1 : GameState) (a b : Int) (m : Bool),
      pieceCount s1 < K → (recur s1 a b m).isSome = true)
    (hrecRestore : ∀ (s1 : GameState) (a b : Int) (m : Bool) (r1 : Int × GameState),
      recur s1 a b m = some r1 → r1.2 = s1)
    (maxing : Bool) (fr fc : Int) (hfr : (fr, fc) ∈ allSquares) :
    ∀ (l : List (Int × Int)) (alpha beta : Int) (st : GameState),
    (if maxing then (st.board fr fc).isUpper = true else (st.board fr fc).isLower = true) →
    pieceCount st ≤ K →
    (qInner recur maxing fr fc l alpha beta st).isSome = true := by
  intro l
  induction l with
  | nil => intro alpha beta st _ _; rfl
  | cons t rest ih =>
    intro alpha beta st hmover hcount
    dsimp only [qInner]
    rw [isValidMoveS_snd st fr fc t.1 t.2]
    split_ifs with hC hV
    all_goals try exact ih _ _ st hmover hcount
    all_goals (
      have hmovNE : st.board fr fc ≠ EMPTY := by
        rcases Bool.eq_false_or_eq_true maxing with hm | hm <;>
          rw [hm] at hmover <;> simp at hmover <;>
          (intro he; rw [he] at hmover; exact absurd hmover (by decide))
      have hne : ¬ (fr = t.1 ∧ fc = t.2) := by
        rintro ⟨e1, e2⟩
        rw [← e1, ← e2] at hC
        rcases hC.2 with ⟨hm1, hl1⟩ | ⟨hm2, hu2⟩
        · rw [hm1] at hmover
          simp at hmover
          rw [isUpper_not_isLower _ hmover] at hl1
          exact absurd hl1 (by decide)
        · have hm2b : maxing = false := by
            cases maxing
            · rfl
            · exact absurd rfl hm2
          rw [hm2b] at hmover
          simp at hmover
          rw [isUpper_not_isLower _ hu2] at hmover
          exact absurd hmover (by decide)
      have hcnt := pieceCount_capture st fr fc t.1 t.2 hfr hne hmovNE hC.1
      have hlt : pieceCount { st with
          board := setB (setB st.board t.1 t.2 (st.board fr fc)) fr fc EMPTY } < K := by
        omega
      split
      · next heqn =>
          have hsome := hrec _ alpha beta (!maxing) hlt
          rw [heqn] at hsome
          exact absurd hsome (by decide)
      · next score st3 heq =>
          have hst3 : st3 = { st with
              board := setB (setB st.board t.1 t.2 (st.board fr fc)) fr fc EMPTY } :=
            hrecRestore _ _ _ _ _ heq
          subst hst3
          dsimp only []
          rw [board_update_self st _ (undo_board st.board fr fc t.1 t.2)]
          split_ifs <;> first | rfl | exact ih _ _ st hmover hcount)

/-- The origin loop of quiescence never returns none when the recursion
bound covers the entry piece count. -/
theorem qOuter_isSome (recur : GameState → Int → Int → Bool → Option (Int × GameState))
    (K : Nat)
    (hrec : ∀ (s1 : GameState) (a b : Int) (m : Bool),
      pieceCount s1 < K → (recur s1 a b m).isSome = true)
    (hrecRestore : ∀ (s1 : GameState) (a b : Int) (m : Bool) (r1 : Int × GameState),
      recur s1 a b m = some r1 → r1.2 = s1)
    (maxing : Bool) :
    ∀ (l : List (Int × Int)), (∀ x ∈ l, x ∈ allSquares) →
    ∀ (alpha beta : Int) (st : GameState), pieceCount st ≤ K →
    (qOuter recur maxing l alpha beta st).isSome = true := by
  intro l
  induction l with
  | nil => intro _ alpha beta st _; rfl
  | cons f rest ih =>
    intro hl alpha beta st hcount
    dsimp only [qOuter]
    split_ifs with hC
    · have hmov : if maxing then (st.board f.1 f.2).isUpper = true
          else (st.board f.1 f.2).isLower = true := by
        rcases hC with ⟨hm, hu⟩ | ⟨hm, hlw⟩
        · rw [hm]
          simpa using hu
        · have hmf : maxing = false := by
            cases maxing
            · rfl
            · exact absurd rfl hm
          rw [hmf]
          simpa using hlw
      split
      · next heqn =>
          have hsome := qInner_isSome recur K hrec hrecRestore maxing f.1 f.2
            (hl f (List.mem_cons_self f rest)) allSquares alpha beta st hmov hcount
          rw [heqn] at hsome
          exact absurd hsome (by decide)
      · next v st1 heq => rfl
      · next a b st1 heq =>
          have hst1 : st1 = st :=
            qInner_restore recur hrecRestore maxing f.1 f.2 _ _ _ _ _ heq
          rw [hst1]
          exact ih (fun x hx => hl x (List.mem_cons_of_mem f hx)) _ _ st hcount
    · exact ih (fun x hx => hl x (List.mem_cons_of_mem f hx)) _ _ st hcount

/-- quiescenceS terminates (returns some) whenever the fuel exceeds the
number of pieces on the board: every recursion is through a capture, which
strictly reduces the piece count. -/
theorem quiescenceS_isSome :
    ∀ (fuel : Nat) (s : GameState) (alpha beta : Int) (m : Bool),
    pieceCount s < fuel → (quiescenceS fuel s alpha beta m).isSome = true := by
  intro fuel
  induction fuel with
  | zero => intro s alpha beta m h; omega
  | succ fuel ih =>
    intro s alpha beta m h
    dsimp only [quiescenceS]
    rw [evaluateBoardS_snd s]
    have hsome : ∀ (a b : Int),
        (qOuter (fun s2 a2 b2 m2 => quiescenceS fuel s2 a2 b2 m2) m allSquares a b
          s).isSome = true :=
      fun a b => qOuter_isSome _ fuel
        (fun s1 a1 b1 m1 hlt => ih s1 a1 b1 m1 hlt)
        (fun s1 a1 b1 m1 r1 hh => quiescenceS_restore fuel s1 a1 b1 m1 r1 hh)
        m allSquares (fun x hx => hx) a b s (by omega)
    split_ifs <;>
      first
        | rfl
        | (split
           · next heqn => exact absurd (hsome _ _) (by rw [heqn]; decide)
           all_goals rfl)

/-- C10: the legality query is observationally pure: the state-passing
isValidMove, which performs the simulation board writes and the turn-flag
toggles of its callees, returns the game state it was given on every path,
whether the move is accepted or rejected. -/
theorem isValidMove_observationally_pure (s : GameState) (fromRow fromCol toRow toCol : Int) :
    (isValidMoveS s fromRow fromCol toRow toCol).2 = s :=
  isValidMoveS_snd s fromRow fromCol toRow toCol

/-- C1: after any minimax or quiescence call that returns, the shared
Position (board contents and side-to-move flag) equals its value at entry,
for every position, depth, and alpha-beta window: every board mutation
applied before a recursive call is reverted on every return path,
including early alpha-beta pruning exits. -/
theorem search_restores_position (fuel qfuel : Nat) (s : GameState)
    (depth alpha beta : Int) (isMaximizingPlayer : Bool) :
    (Option.elim (minimaxS fuel qfuel s depth alpha beta isMaximizingPlayer) True
      fun r => r.2.board = s.board ∧ r.2.isWhiteTurn = s.isWhiteTurn) ∧
    (Option.elim (quiescenceS fuel s alpha beta isMaximizingPlayer) True
      fun r => r.2.board = s.board ∧ r.2.isWhiteTurn = s.isWhiteTurn) := by
  constructor
  · rcases hm : minimaxS fuel qfuel s depth alpha beta isMaximizingPlayer with _ | r
    · exact trivial
    · have hr := minimaxS_restore fuel qfuel s depth alpha beta isMaximizingPlayer r hm
      simp only [Option.elim_some]
      rw [hr]
      exact ⟨rfl, rfl⟩
  · rcases hq : quiescenceS fuel s alpha beta isMaximizingPlayer with _ | r
    · exact trivial
    · have hr := quiescenceS_restore fuel s alpha beta isMaximizingPlayer r hq
      simp only [Option.elim_some]
      rw [hr]
      exact ⟨rfl, rfl⟩

/-- C9: quiescence terminates on every position: it recurses only through
capturing moves, each of which strictly reduces the piece count, so fuel
65 (one more than the 64 board squares) is never exhausted and the search
returns a value. -/
theorem quiescence_terminates (s : GameState) (alpha beta : Int)
    (isMaximizingPlayer : Bool) :
    (quiescenceS 65 s alpha beta isMaximizingPlayer).isSome = true :=
  quiescenceS_isSome 65 s alpha beta isMaximizingPlayer
    (by have := pieceCount_le s; omega)

end Theorems

end ChessEngine
